import Mathlib

/-!
Shallow embedding of the Cerebroso bot's core engines (src/cerebroso.py) and
verification of the specification's claims about them.

Modelling conventions:
* Python dicts are embedded as association lists; lookups use the first
  matching entry (Python dicts have unique keys, so on well-formed stores the
  two coincide).  Where a proof needs the dict discipline it takes an explicit
  `Nodup` hypothesis on the keys.
* ISO day-key strings ("YYYY-MM-DD") sort lexicographically in day order, so
  day keys are embedded as integers (day ordinals); the `day.startswith(month_key)`
  test of `_rotina_monthly_counts` is abstracted by a month-extraction function
  `dayMonth : Int → Int`, and month keys by integers.
* Unix timestamps are integers.
* The platform (Discord) is an external collaborator: channel resolution,
  member lookup, role membership and message delivery are environment inputs,
  and role mutations are recorded as an explicit action list.
-/

namespace Cerebroso

abbrev UserId := Nat

/-- One day's user map `confirmations[day]`: a dict user-id → bool. -/
abbrev DayConf := List (UserId × Bool)

/-- `rotina["confirmations"]`: a dict day-key → user map. -/
abbrev ConfMap := List (Int × DayConf)

/-- `confirmations.get(key, {})`. -/
def lookupDay (conf : ConfMap) (d : Int) : DayConf :=
  match conf.find? (fun p => p.1 == d) with
  | some p => p.2
  | none => []

/-- Truthiness of `users.get(str(user_id))` (values stored are booleans). -/
def lookupUser (users : DayConf) (uid : UserId) : Bool :=
  match users.find? (fun q => q.1 == uid) with
  | some q => q.2
  | none => false

/-- `confirmations.get(key, {}).get(str(user_id))` as used by `_rotina_user_streak`. -/
def confGet (conf : ConfMap) (d : Int) (uid : UserId) : Bool :=
  lookupUser (lookupDay conf d) uid

/-- Number of entries of `conf` whose day key is ≤ `d`; a bound on how many
consecutive confirmed days the backward walk of `_rotina_user_streak` can
still visit from day `d`. -/
def entriesLE (conf : ConfMap) (d : Int) : Nat :=
  (conf.filter (fun p => decide (p.1 ≤ d))).length

/-- The while-loop of `_rotina_user_streak`, with explicit fuel: starting at
day `d`, count consecutive days with a truthy confirmation, walking backwards.
`rotina_user_streak` runs it with fuel `conf.length`, which is shown sufficient
by `rotina_user_streak_unfold`: each confirmed step consumes a distinct day key
of `conf`, so the loop makes at most `conf.length` confirmed steps. -/
def streakWalk (conf : ConfMap) (uid : UserId) : Nat → Int → Nat
  | 0, _ => 0
  | fuel + 1, d => if confGet conf d uid then streakWalk conf uid fuel (d - 1) + 1 else 0

/-- `_rotina_user_streak`: consecutive-day streak ending at `today` (0 when
`today` itself has no truthy confirmation). -/
def rotina_user_streak (conf : ConfMap) (uid : UserId) (today : Int) : Nat :=
  streakWalk conf uid conf.length today

/-! ### Pomodoro cycle engine (`pomodoro_loop`, `_advance_pomodoro`,
`_set_pomodoro_pause`) -/

inductive Phase
  | foco
  | pausa_curta
  | pausa_longa
deriving Repr, DecidableEq

/-- `channel_data["config"]` (`default_pomodoro_config` shape). -/
structure PomConfig where
  focus_seconds : Int
  short_break_seconds : Int
  long_break_seconds : Int
  cycles_before_long : Int
deriving Repr, DecidableEq

/-- `channel_data["session"]` (participants omitted: they are not read by the
tick or pause paths). -/
structure PomSession where
  active : Bool
  phase : Phase
  remaining : Int
  cycle : Int
  paused : Bool
  last_ts : Int
deriving Repr, DecidableEq

/-- `_advance_pomodoro` after its channel guard: exactly one phase transition,
resetting `remaining` to the configured full duration of the new phase and
re-stamping `last_ts`. -/
def advancePomodoro (cfg : PomConfig) (s : PomSession) (now : Int) : PomSession :=
  match s.phase with
  | .foco =>
    let cycle := s.cycle + 1
    if cycle % (max 1 cfg.cycles_before_long) == 0 then
      { s with cycle := cycle, phase := .pausa_longa,
               remaining := cfg.long_break_seconds, last_ts := now }
    else
      { s with cycle := cycle, phase := .pausa_curta,
               remaining := cfg.short_break_seconds, last_ts := now }
  | .pausa_curta =>
    { s with phase := .foco, remaining := cfg.focus_seconds, last_ts := now }
  | .pausa_longa =>
    { s with phase := .foco, remaining := cfg.focus_seconds, last_ts := now }

/-- One `pomodoro_loop` tick for one channel.  `channelOk` says whether
`get_channel` resolves to a text channel inside `_advance_pomodoro` (when it
does not, the decremented session is kept but no transition happens). -/
def pomodoroTick (cfg : PomConfig) (channelOk : Bool) (s : PomSession) (now : Int) :
    PomSession :=
  if !s.active then s
  else if s.paused then s
  else
    let delta := now - s.last_ts
    if delta ≤ 0 then s
    else
      let s1 : PomSession :=
        { s with remaining := max 0 (s.remaining - delta), last_ts := now }
      if s1.remaining ≤ 0 then
        if channelOk then advancePomodoro cfg s1 now else s1
      else s1

/-- `_set_pomodoro_pause` on an existing session: stores the requested pause
flag and unconditionally re-stamps `last_ts` with the current time. -/
def setPomodoroPause (s : PomSession) (paused : Bool) (now : Int) : PomSession :=
  { s with paused := paused, last_ts := now }

/-! ### Reminder delivery (`reminder_loop`, `/lembrete cancelar`) -/

structure Reminder where
  id : Nat
  user_id : UserId
  when_ts : Int
  text : String
  delivered : Bool
  created_ts : Int
deriving Repr, DecidableEq

/-- Platform conditions for one delivery attempt: whether the owner resolves
(`get_user` / `fetch_user`) and whether `user.send` succeeds. -/
structure ReminderEnv where
  userResolvable : Bool
  sendOk : Bool
deriving Repr, DecidableEq

/-- One `reminder_loop` tick for one reminder; returns the new reminder and
whether a delivery succeeded this tick.  A failed send leaves the reminder
undelivered for retry on the next tick. -/
def reminderTick (env : ReminderEnv) (now : Int) (r : Reminder) : Reminder × Bool :=
  if !r.delivered && decide (r.when_ts ≤ now) then
    if env.userResolvable then
      if env.sendOk then ({ r with delivered := true }, true) else (r, false)
    else (r, false)
  else (r, false)

/-- `/lembrete cancelar` on one reminder: the owner's cancellation marks the
reminder delivered (soft delete); anything else is untouched. -/
def cancelReminder (requester : UserId) (rid : Nat) (r : Reminder) : Reminder :=
  if r.id == rid && r.user_id == requester then { r with delivered := true } else r

/-- The operations that ever mutate a reminder. -/
inductive ReminderOp
  | tick (env : ReminderEnv) (now : Int)
  | cancel (requester : UserId) (rid : Nat)
deriving Repr, DecidableEq

def reminderStep (r : Reminder) (op : ReminderOp) : Reminder × Bool :=
  match op with
  | .tick env now => reminderTick env now r
  | .cancel u i => (cancelReminder u i r, false)

/-- Run a sequence of reminder operations, counting successful deliveries. -/
def reminderRun (r : Reminder) (ops : List ReminderOp) : Reminder × Nat :=
  ops.foldl
    (fun st op =>
      let next := reminderStep st.1 op
      (next.1, st.2 + if next.2 then 1 else 0))
    (r, 0)

/-! ### DM-blocked backoff (`_dm_status_entry`, `_handle_dm_blocked`,
`_dm_blocked_until`) and the due-ness guards of `habito_loop` /
`rotina_dm_loop`.

The public-notice bookkeeping of `_handle_dm_blocked` (`notified`,
`daily_limit`) does not feed into any due-ness decision and is omitted
from the entry model. -/

structure DmEntry where
  blocked : Bool
  next_check : Int
deriving Repr, DecidableEq

/-- `_handle_dm_blocked`: mark blocked and set the retry time 300 s ahead. -/
def handleDmBlocked (now : Int) : DmEntry :=
  { blocked := true, next_check := now + 300 }

/-- `_dm_blocked_until`. -/
def dmBlockedUntil (e : DmEntry) : Int :=
  if e.blocked then e.next_check else 0

/-- Platform conditions seen by one nudge check. -/
structure NudgeEnv where
  memberPresent : Bool
  userResolvable : Bool
deriving Repr, DecidableEq

/-- The slice of a habit read by `habito_loop`'s due-ness check. -/
structure Habit where
  active : Bool
  goal_per_day : Int
  progress_today : Int
  next_ts : Int
  interval_min : Int
deriving Repr, DecidableEq

inductive NudgeOutcome
  | skip
  | attempt
deriving Repr, DecidableEq

/-- The guard sequence of one `habito_loop` iteration for one habit, up to the
point where a DM send would be attempted. -/
def habitoCheck (env : NudgeEnv) (e : DmEntry) (now : Int) (h : Habit) :
    Habit × NudgeOutcome :=
  if !h.active then (h, .skip)
  else if max 1 h.goal_per_day ≤ h.progress_today then (h, .skip)
  else if h.next_ts ≠ 0 ∧ now < h.next_ts then (h, .skip)
  else if !env.memberPresent then ({ h with next_ts := now + 86400 }, .skip)
  else if !env.userResolvable then (h, .skip)
  else
    let blocked_until := dmBlockedUntil e
    if blocked_until ≠ 0 ∧ now < blocked_until then
      (if h.next_ts < blocked_until then { h with next_ts := blocked_until } else h, .skip)
    else (h, .attempt)

/-- A routine enrollment (`rotina["enrollments"][uid]`).  The quiet window is
consumed through `_is_within_window`, abstracted below as the `inQuiet` input
of `rotinaUserCheck`. -/
structure RotinaPrefs where
  dm : Bool
  interval_min : Int
  next_ts : Int
  snooze_until : Int
deriving Repr, DecidableEq

/-- The guard sequence of one `rotina_dm_loop` iteration for one enrolled
user, up to the point where a DM send would be attempted.  `confirmed` is
`confirmations[today].get(uid)` and `inQuiet` is the `_is_within_window`
result for the user's quiet window. -/
def rotinaUserCheck (env : NudgeEnv) (e : DmEntry) (now : Int) (confirmed : Bool)
    (inQuiet : Bool) (p : RotinaPrefs) : RotinaPrefs × NudgeOutcome :=
  if !p.dm then (p, .skip)
  else if confirmed then (p, .skip)
  else if p.snooze_until ≠ 0 ∧ now < p.snooze_until then (p, .skip)
  else
    let p1 := if p.snooze_until ≠ 0 then { p with snooze_until := 0 } else p
    if !env.memberPresent then ({ p1 with next_ts := now + 86400 }, .skip)
    else if p1.next_ts ≠ 0 ∧ now < p1.next_ts then (p1, .skip)
    else
      let blocked_until := dmBlockedUntil e
      if blocked_until ≠ 0 ∧ now < blocked_until then
        (if p1.next_ts < blocked_until then { p1 with next_ts := blocked_until } else p1,
          .skip)
      else if !inQuiet then (p1, .skip)
      else if !env.userResolvable then (p1, .skip)
      else (p1, .attempt)

/-! ### Leaderboard statistics (`_rotina_stats`) -/

/-- The per-user accumulator of `_rotina_stats` (`last_day` is popped from the
returned dicts by the source right before sorting; it is kept here and simply
not consulted afterwards). -/
structure UserInfo where
  total : Nat
  streak : Nat
  last_day : Option Int
deriving Repr, DecidableEq

def defaultInfo : UserInfo := ⟨0, 0, none⟩

/-- One accumulator update of `_rotina_stats` for a confirmed (day, user).
A gap of more than one day resets the streak to 1; an exactly-one-day step
increments it; a repeated or out-of-order day leaves it at `max streak 1`. -/
def statsUpdate (info : UserInfo) (day : Int) : UserInfo :=
  let total := info.total + 1
  match info.last_day with
  | none => ⟨total, 1, some day⟩
  | some last =>
    if 1 < day - last then ⟨total, 1, some day⟩
    else if day - last == 1 then ⟨total, info.streak + 1, some day⟩
    else ⟨total, max info.streak 1, some day⟩

/-- The `per_user` defaultdict. -/
abbrev Stats := List (UserId × UserInfo)

def getInfo (st : Stats) (uid : UserId) : UserInfo :=
  match st.find? (fun p => p.1 == uid) with
  | some p => p.2
  | none => defaultInfo

/-- Write-through of `per_user[uid] = info` (defaultdict semantics: replace
the existing entry, else append in insertion order). -/
def setInfo (st : Stats) (uid : UserId) (i : UserInfo) : Stats :=
  match st with
  | [] => [(uid, i)]
  | p :: rest => if p.1 == uid then (uid, i) :: rest else p :: setInfo rest uid i

/-- The inner `for user_id_str, confirmed in users.items()` loop of
`_rotina_stats` for one day. -/
def statsProcessUsers (day : Int) (st : Stats) (users : DayConf) : Stats :=
  users.foldl
    (fun st q => if q.2 then setInfo st q.1 (statsUpdate (getInfo st q.1) day) else st)
    st

/-- One iteration of the `for day in sorted(confirmations.keys())` loop:
days before the 30-day cutoff are skipped. -/
def statsProcessDay (conf : ConfMap) (cutoff : Int) (st : Stats) (day : Int) : Stats :=
  if day < cutoff then st else statsProcessUsers day st (lookupDay conf day)

/-- `sorted(confirmations.keys())` (dict keys are unique, hence `dedup`). -/
def statsDays (conf : ConfMap) : List Int :=
  List.insertionSort (· ≤ ·) (conf.map Prod.fst).dedup

/-- The fully folded `per_user` table of `_rotina_stats`. -/
def rotina_stats_table (conf : ConfMap) (todayUtc : Int) : Stats :=
  (statsDays conf).foldl (statsProcessDay conf (todayUtc - 29)) []

/-- Python tuple ≤ on the `(streak, total)` sort key. -/
def statLe (x y : Nat × Nat) : Prop :=
  x.1 < y.1 ∨ (x.1 = y.1 ∧ x.2 ≤ y.2)

instance : DecidableRel statLe := fun x y => by unfold statLe; infer_instance

/-- `sorted(per_user.items(), key=(streak, total), reverse=True)`: `a` may
precede `b` iff `b`'s key is ≤ `a`'s key. -/
def statRev (a b : UserId × UserInfo) : Prop :=
  statLe (b.2.streak, b.2.total) (a.2.streak, a.2.total)

instance : DecidableRel statRev := fun a b => by unfold statRev; infer_instance

/-- `_rotina_stats`: the per-user 30-day totals and streaks, ranked by
(streak desc, total desc). -/
def rotina_stats (conf : ConfMap) (todayUtc : Int) : Stats :=
  List.insertionSort statRev (rotina_stats_table conf todayUtc)

/-- The streak `_rotina_stats` reports for one user (0 when the user does not
appear). -/
def rotina_stats_streak (conf : ConfMap) (todayUtc : Int) (uid : UserId) : Nat :=
  (getInfo (rotina_stats_table conf todayUtc) uid).streak

/-- The days of the 30-day window on which `uid` has a truthy confirmation, in
the ascending order `_rotina_stats` visits them. -/
def userDayList (conf : ConfMap) (cutoff : Int) (uid : UserId) : List Int :=
  (statsDays conf).filter (fun d => decide (cutoff ≤ d) && confGet conf d uid)

/-- The accumulator `_rotina_stats` ends up with for one user, as a fold over
that user's confirmed days. -/
def userFoldInfo (ds : List Int) : UserInfo :=
  ds.foldl statsUpdate defaultInfo

/-! ### Monthly-top ranking (`_rotina_monthly_counts`) -/

/-- `counts[uid] += 1` on the `defaultdict(int)` of `_rotina_monthly_counts`. -/
def bumpCount (st : List (UserId × Nat)) (uid : UserId) : List (UserId × Nat) :=
  match st with
  | [] => [(uid, 1)]
  | p :: rest => if p.1 == uid then (p.1, p.2 + 1) :: rest else p :: bumpCount rest uid

/-- The count-accumulation loops of `_rotina_monthly_counts`: every truthy
confirmation on a day of the queried month (`day.startswith(month_key)`,
embedded as `dayMonth day == mk`) bumps the user's count. -/
def monthlyCountsTable (dayMonth : Int → Int) (conf : ConfMap) (mk : Int) :
    List (UserId × Nat) :=
  conf.foldl
    (fun st p =>
      if dayMonth p.1 == mk then
        p.2.foldl (fun st q => if q.2 then bumpCount st q.1 else st) st
      else st)
    []

/-- Sort key of `_rotina_monthly_counts`: `(count, streak, -uid)`. -/
def rankKey (conf : ConfMap) (today : Int) (item : UserId × Nat) : Nat × Nat × Int :=
  (item.2, rotina_user_streak conf item.1 today, -(item.1 : Int))

/-- Python tuple ≤ on sort keys. -/
def keyLe (x y : Nat × Nat × Int) : Prop :=
  x.1 < y.1 ∨ (x.1 = y.1 ∧ (x.2.1 < y.2.1 ∨ (x.2.1 = y.2.1 ∧ x.2.2 ≤ y.2.2)))

instance : DecidableRel keyLe := fun x y => by unfold keyLe; infer_instance

/-- `sorted(..., reverse=True)` on the key above: `a` may precede `b` iff
`b`'s key is ≤ `a`'s key. -/
def rankGe (conf : ConfMap) (today : Int) (a b : UserId × Nat) : Prop :=
  keyLe (rankKey conf today b) (rankKey conf today a)

instance : DecidableRel (rankGe conf today) := fun a b => by unfold rankGe; infer_instance

instance (conf : ConfMap) (today : Int) : IsTotal (UserId × Nat) (rankGe conf today) :=
  ⟨fun a b => by
    simp only [rankGe, keyLe, rankKey]
    omega⟩

instance (conf : ConfMap) (today : Int) : IsTrans (UserId × Nat) (rankGe conf today) :=
  ⟨fun a b c hab hbc => by
    simp only [rankGe, keyLe, rankKey] at hab hbc ⊢
    omega⟩

/-- `_rotina_monthly_counts`: current-month confirmation counts, ranked. -/
def rotina_monthly_counts (dayMonth : Int → Int) (conf : ConfMap) (today : Int)
    (mk : Int) : List (UserId × Nat) :=
  List.insertionSort (rankGe conf today) (monthlyCountsTable dayMonth conf mk)

/-- The ordering claim C1 asserts, read off the spec's words: confirmation
count descending, then current streak descending, then user id descending. -/
def rankGeDesc (conf : ConfMap) (today : Int) (a b : UserId × Nat) : Prop :=
  b.2 < a.2 ∨ (a.2 = b.2 ∧
    (rotina_user_streak conf b.1 today < rotina_user_streak conf a.1 today ∨
      (rotina_user_streak conf a.1 today = rotina_user_streak conf b.1 today ∧
        b.1 ≤ a.1)))

instance : DecidableRel (rankGeDesc conf today) := fun a b => by
  unfold rankGeDesc; infer_instance

/-- The ordering the code actually produces: confirmation count descending,
then current streak descending, then user id ascending. -/
def rankGeAsc (conf : ConfMap) (today : Int) (a b : UserId × Nat) : Prop :=
  b.2 < a.2 ∨ (a.2 = b.2 ∧
    (rotina_user_streak conf b.1 today < rotina_user_streak conf a.1 today ∨
      (rotina_user_streak conf a.1 today = rotina_user_streak conf b.1 today ∧
        a.1 ≤ b.1)))

instance : DecidableRel (rankGeAsc conf today) := fun a b => by
  unfold rankGeAsc; infer_instance

/-! ### Achievement reconciliation (`_process_rotina_achievements`) -/

/-- Platform-side state the engine consults: member presence, role existence,
and the member-roles snapshot (`member.roles`). -/
structure Guild where
  memberPresent : UserId → Bool
  roleExists : Nat → Bool
  hasRole : UserId → Nat → Bool

/-- Outbound role mutations (`member.add_roles` / `member.remove_roles`). -/
inductive RoleAction
  | add (uid : UserId) (role : Nat)
  | remove (uid : UserId) (role : Nat)
deriving Repr, DecidableEq

/-- Live update of the member-roles view after an emitted mutation. -/
def setHeld (held : UserId → Nat → Bool) (uid : UserId) (role : Nat) (v : Bool) :
    UserId → Nat → Bool :=
  fun u r => if u = uid ∧ r = role then v else held u r

/-- Python truthiness of an optional id (None and 0 are falsy). -/
def truthyId : Option Nat → Bool
  | some n => n != 0
  | none => false

/-- `_remove_role_from_member`: a revoke is requested only when the member
still resolves and actually holds the role. -/
def removeRoleFromMember (g : Guild) (held : UserId → Nat → Bool) (role : Nat)
    (uid : UserId) : (UserId → Nat → Bool) × List RoleAction :=
  if g.memberPresent uid && held uid role then
    (setHeld held uid role false, [.remove uid role])
  else (held, [])

/-- One `achievements["streak_roles"]` entry. -/
structure StreakRole where
  role_id : Option Nat
  days : Int
deriving Repr, DecidableEq

/-- `achievements["monthly_top"]`. -/
structure MonthlyTop where
  role_id : Option Nat
  winner_id : Option UserId
  month : Option Int
deriving Repr, DecidableEq

/-- `rotina["achievements"]` after `_ensure_rotina_achievements`. -/
structure Achievements where
  streak_roles : List StreakRole
  monthly_top : MonthlyTop

/-- The streak-role grant loop of `_process_rotina_achievements`: monotone
grants only, each requested only when the member does not already hold it. -/
def streakSection (g : Guild) (held : UserId → Nat → Bool) (roles : List StreakRole)
    (streak : Nat) (uid : UserId) : (UserId → Nat → Bool) × List RoleAction :=
  roles.foldl
    (fun st entry =>
      match entry.role_id with
      | none => st
      | some rid =>
        if rid = 0 then st
        else if entry.days ≤ 0 then st
        else if entry.days ≤ (streak : Int) then
          if g.roleExists rid && !(st.1 uid rid) then
            (setHeld st.1 uid rid true, st.2 ++ [.add uid rid])
          else st
        else st)
    (held, [])

structure MonthlyState where
  monthly : MonthlyTop
  held : UserId → Nat → Bool
  actions : List RoleAction
  changed : Bool
  prevWinner : Option UserId

structure MonthlyResult where
  monthly : MonthlyTop
  held : UserId → Nat → Bool
  actions : List RoleAction
  changed : Bool

/-- The month-rollover prologue of the monthly-top block (source lines
1037-1044): when a previous month with a truthy winner differs from the
current month key, revoke and clear the winner before re-ranking; the local
`previous_winner` variable becomes `prevWinner`. -/
def monthlyRollover (g : Guild) (held0 : UserId → Nat → Bool) (m0 : MonthlyTop)
    (rid : Nat) (month_key : Int) (changed0 : Bool) : MonthlyState :=
  if m0.month.isSome && m0.month != some month_key && truthyId m0.winner_id then
    let rr := removeRoleFromMember g held0 rid (m0.winner_id.getD 0)
    ⟨{ m0 with winner_id := none }, rr.1, rr.2, true, none⟩
  else ⟨m0, held0, [], changed0, m0.winner_id⟩

/-- The `if counts:` arm of the monthly-top block (source lines 1045-1068):
winner transfer (revoke old, grant new, store the new winner) or idempotent
repair of the unchanged winner, then the month-key refresh. -/
def monthlyTopBranch (g : Guild) (rid : Nat) (month_key : Int) (s1 : MonthlyState)
    (top_user : UserId) : MonthlyResult :=
  if s1.prevWinner ≠ some top_user then
    let s2 : MonthlyState :=
      if truthyId s1.prevWinner then
        let rr := removeRoleFromMember g s1.held rid (s1.prevWinner.getD 0)
        { s1 with held := rr.1, actions := s1.actions ++ rr.2 }
      else s1
    let s3 : MonthlyState :=
      if g.memberPresent top_user && !(s2.held top_user rid) then
        { s2 with held := setHeld s2.held top_user rid true,
                  actions := s2.actions ++ [.add top_user rid] }
      else s2
    let s4 : MonthlyState :=
      if s3.monthly.winner_id ≠ some top_user then
        { s3 with monthly := { s3.monthly with winner_id := some top_user },
                  changed := true }
      else s3
    let s5 : MonthlyState :=
      if s4.monthly.month ≠ some month_key then
        { s4 with monthly := { s4.monthly with month := some month_key },
                  changed := true }
      else s4
    ⟨s5.monthly, s5.held, s5.actions, s5.changed⟩
  else
    let pw := s1.prevWinner.getD 0
    let s3 : MonthlyState :=
      if g.memberPresent pw && !(s1.held pw rid) then
        { s1 with held := setHeld s1.held pw rid true,
                  actions := s1.actions ++ [.add pw rid] }
      else s1
    let s5 : MonthlyState :=
      if s3.monthly.month ≠ some month_key then
        { s3 with monthly := { s3.monthly with month := some month_key },
                  changed := true }
      else s3
    ⟨s5.monthly, s5.held, s5.actions, s5.changed⟩

/-- The `else` (zero confirmations) arm of the monthly-top block (source
lines 1069-1077): revoke and clear any remaining truthy winner, then refresh
the month key. -/
def monthlyZeroBranch (g : Guild) (rid : Nat) (month_key : Int) (s1 : MonthlyState) :
    MonthlyResult :=
  let s2 : MonthlyState :=
    if truthyId s1.prevWinner then
      let rr := removeRoleFromMember g s1.held rid (s1.prevWinner.getD 0)
      let s2a : MonthlyState := { s1 with held := rr.1, actions := s1.actions ++ rr.2 }
      if s2a.monthly.winner_id ≠ none then
        { s2a with monthly := { s2a.monthly with winner_id := none }, changed := true }
      else s2a
    else s1
  let s5 : MonthlyState :=
    if s2.monthly.month ≠ some month_key then
      { s2 with monthly := { s2.monthly with month := some month_key }, changed := true }
    else s2
  ⟨s5.monthly, s5.held, s5.actions, s5.changed⟩

/-- The monthly-top block of `_process_rotina_achievements` (source lines
1025-1077): guard on a configured, resolvable role, month-rollover
revocation, then the winner transfer / zero-confirmation arm. -/
def monthlySection (g : Guild) (held0 : UserId → Nat → Bool)
    (counts : List (UserId × Nat)) (m0 : MonthlyTop) (month_key : Int)
    (changed0 : Bool) : MonthlyResult :=
  if !truthyId m0.role_id then ⟨m0, held0, [], changed0⟩
  else
    let rid := m0.role_id.getD 0
    if !g.roleExists rid then ⟨m0, held0, [], changed0⟩
    else
      match counts with
      | (top_user, _) :: _ =>
        monthlyTopBranch g rid month_key
          (monthlyRollover g held0 m0 rid month_key changed0) top_user
      | [] =>
        monthlyZeroBranch g rid month_key
          (monthlyRollover g held0 m0 rid month_key changed0)

structure ProcResult where
  monthly : MonthlyTop
  held : UserId → Nat → Bool
  actions : List RoleAction
  changed : Bool

/-- `_process_rotina_achievements` for one routine and triggering user:
streak-role grants, then the monthly-top block.  `channelOk` models the
`_resolve_rotina_channel` guard; `dayMonth today` is the current month key
`datetime.now(tz).strftime` yields. -/
def processRotinaAchievements (g : Guild) (channelOk : Bool) (dayMonth : Int → Int)
    (conf : ConfMap) (today : Int) (ach : Achievements) (trigger : UserId) : ProcResult :=
  if !channelOk then ⟨ach.monthly_top, g.hasRole, [], false⟩
  else if !g.memberPresent trigger then ⟨ach.monthly_top, g.hasRole, [], false⟩
  else
    let ss := streakSection g g.hasRole ach.streak_roles
                (rotina_user_streak conf trigger today) trigger
    let month_key := dayMonth today
    let counts := rotina_monthly_counts dayMonth conf today month_key
    let mr := monthlySection g ss.1 counts ach.monthly_top month_key false
    ⟨mr.monthly, mr.held, ss.2 ++ mr.actions, mr.changed⟩

/-! ### Routine announcements (`rotina_anuncio_loop`) -/

/-- `parse_hhmm` (the `int()` calls are modelled for canonical digit strings:
a non-numeric or out-of-range part yields `None`). -/
def parse_hhmm (text : String) : Option (Nat × Nat) :=
  match text.splitOn ":" with
  | [h, m] =>
    match h.toNat?, m.toNat? with
    | some hi, some mi => if hi < 24 && mi < 60 then some (hi, mi) else none
    | _, _ => none
  | _ => none

/-- One recorded announcement (`message_id` and `ts`; the redundant `time`
field is the slot key itself). -/
structure AnnInfo where
  message_id : Nat
  ts : Int
deriving Repr, DecidableEq

/-- `announcements[day]`: either the pre-slot legacy shape (a single message
dict, recognized by its `message_id` key) or the slot-keyed map. -/
inductive DailyAnn
  | legacy (info : AnnInfo)
  | slots (m : List (String × AnnInfo))
deriving Repr, DecidableEq

abbrev AnnMap := List (Int × DailyAnn)

def lookupAnn (ann : AnnMap) (day : Int) : Option DailyAnn :=
  (ann.find? (fun p => p.1 == day)).map Prod.snd

def setAnn (ann : AnnMap) (day : Int) (v : DailyAnn) : AnnMap :=
  match ann with
  | [] => [(day, v)]
  | p :: rest => if p.1 == day then (day, v) :: rest else p :: setAnn rest day v

def lookupSlot (ann : AnnMap) (day : Int) (slot : String) : Option AnnInfo :=
  match lookupAnn ann day with
  | some (.slots m) => (m.find? (fun q => q.1 == slot)).map Prod.snd
  | _ => none

/-- Per-tick environment of the announcement loop: the current local minute
and the platform's send behaviour. -/
structure AnnEnv where
  nowHour : Nat
  nowMinute : Nat
  sendOk : String → Bool
  newMessageId : String → Nat
  nowTs : Int

/-- One iteration of the `for entry in times` loop of `rotina_anuncio_loop`:
skip unparseable or non-matching slots, migrate a legacy day record, skip a
slot that already has an entry, and record the announcement only after a
successful send.  (The enrollment `next_ts` resets and the confirmation-map
`setdefault` after a successful send do not touch `announcements` and are
modelled elsewhere.) -/
def annSlotStep (env : AnnEnv) (today : Int) (st : AnnMap × List String)
    (entry : String) : AnnMap × List String :=
  match parse_hhmm entry with
  | none => st
  | some hm =>
    if env.nowHour = hm.1 ∧ env.nowMinute = hm.2 then
      let daily : List (String × AnnInfo) :=
        match lookupAnn st.1 today with
        | some (.legacy info) => [("__legacy__", info)]
        | some (.slots m) => m
        | none => []
      let ann1 := setAnn st.1 today (.slots daily)
      if (daily.find? (fun q => q.1 == entry)).isSome then (ann1, st.2)
      else if env.sendOk entry then
        (setAnn ann1 today (.slots (daily ++ [(entry, ⟨env.newMessageId entry, env.nowTs⟩)])),
          st.2 ++ [entry])
      else (ann1, st.2)
    else st

/-- One announcement tick for one routine; returns the new announcement map
and the slots for which an entry was created this tick. -/
def annTick (env : AnnEnv) (times : List String) (today : Int) (ann : AnnMap) :
    AnnMap × List String :=
  times.foldl (annSlotStep env today) (ann, [])

/-- A sequence of announcement ticks (each with its own local day key),
accumulating every announcement-entry creation as a (day, slot) pair. -/
def annRunGo (times : List String) (ann : AnnMap) (acc : List (Int × String)) :
    List (AnnEnv × Int) → AnnMap × List (Int × String)
  | [] => (ann, acc)
  | tick :: rest =>
      annRunGo times (annTick tick.1 times tick.2 ann).1
        (acc ++ (annTick tick.1 times tick.2 ann).2.map (fun slot => (tick.2, slot))) rest

def annRun (times : List String) (ticks : List (AnnEnv × Int)) (ann : AnnMap) :
    AnnMap × List (Int × String) :=
  annRunGo times ann [] ticks

/-! ### Confirmation recording (`confirmar_rotina`) -/

/-- `users[str(uid)] = True` on one day's map. -/
def setUserTrue (uid : UserId) (users : DayConf) : DayConf :=
  match users with
  | [] => [(uid, true)]
  | q :: rest => if q.1 == uid then (uid, true) :: rest else q :: setUserTrue uid rest

/-- `confirmations.setdefault(day, {})[str(uid)] = True`. -/
def setConf (conf : ConfMap) (day : Int) (uid : UserId) : ConfMap :=
  match conf with
  | [] => [(day, [(uid, true)])]
  | p :: rest => if p.1 == day then (p.1, setUserTrue uid p.2) :: rest else p :: setConf rest day uid

/-- Refresh `prefs["next_ts"]` for the first enrollment entry of `uid`. -/
def updatePrefsNextTs (enroll : List (UserId × RotinaPrefs)) (uid : UserId) (v : Int) :
    List (UserId × RotinaPrefs) :=
  match enroll with
  | [] => []
  | q :: rest =>
    if q.1 == uid then (q.1, { q.2 with next_ts := v }) :: rest
    else q :: updatePrefsNextTs rest uid v

/-- The slice of a routine record mutated by `confirmar_rotina`. -/
structure Rotina where
  id : Nat
  confirmations : ConfMap
  enrollments : List (UserId × RotinaPrefs)
  achievements : Achievements

/-- The body of `confirmar_rotina` for the matching routine: record the
confirmation unconditionally, refresh the nudge interval only when an
enrollment exists, then reconcile achievements on the updated history.
`day` is the resolved date key and `today` the evaluation date used by the
achievement engine's streak and month computations. -/
def confirmRotinaOne (g : Guild) (channelOk : Bool) (dayMonth : Int → Int)
    (today : Int) (r : Rotina) (uid : UserId) (day : Int) (now : Int) : Rotina :=
  let conf := setConf r.confirmations day uid
  let enroll :=
    match r.enrollments.find? (fun q => q.1 == uid) with
    | some q => updatePrefsNextTs r.enrollments uid (now + max 5 q.2.interval_min * 60)
    | none => r.enrollments
  let res := processRotinaAchievements g channelOk dayMonth conf today r.achievements uid
  { r with confirmations := conf, enrollments := enroll,
           achievements := { r.achievements with monthly_top := res.monthly } }

/-- `confirmar_rotina`: the loop over `global_habits` updates the first
routine whose id matches and stops. -/
def confirmar_rotina (g : Guild) (channelOk : Bool) (dayMonth : Int → Int)
    (today : Int) (store : List Rotina) (rid : Nat) (uid : UserId) (day : Int)
    (now : Int) : List Rotina :=
  match store with
  | [] => []
  | r :: rest =>
    if r.id == rid then confirmRotinaOne g channelOk dayMonth today r uid day now :: rest
    else r :: confirmar_rotina g channelOk dayMonth today rest rid uid day now

/-! ## Foundational lemmas about the streak walk -/

theorem confGet_exists_entry {conf : ConfMap} {d : Int} {uid : UserId}
    (h : confGet conf d uid = true) : ∃ p ∈ conf, p.1 = d := by
  rcases hf : conf.find? (fun p => p.1 == d) with _ | p
  · have hfalse : confGet conf d uid = false := by
      unfold confGet lookupDay
      rw [hf]
      rfl
    rw [hfalse] at h
    cases h
  · exact ⟨p, List.mem_of_find?_eq_some hf, by simpa using List.find?_some hf⟩

theorem entriesLE_mono (conf : ConfMap) {d' d : Int} (h : d' ≤ d) :
    entriesLE conf d' ≤ entriesLE conf d := by
  unfold entriesLE
  rw [← List.countP_eq_length_filter, ← List.countP_eq_length_filter]
  exact List.countP_mono_left fun p _ hp => by
    simp only [decide_eq_true_eq] at hp ⊢
    omega

theorem entriesLE_cons (q : Int × DayConf) (rest : ConfMap) (e : Int) :
    entriesLE (q :: rest) e = entriesLE rest e + if q.1 ≤ e then 1 else 0 := by
  unfold entriesLE
  rw [← List.countP_eq_length_filter, ← List.countP_eq_length_filter, List.countP_cons]
  by_cases hqe : q.1 ≤ e
  · simp [hqe]
  · simp [hqe]

theorem entriesLE_lt {conf : ConfMap} {d : Int} (h : ∃ p ∈ conf, p.1 = d) :
    entriesLE conf (d - 1) < entriesLE conf d := by
  induction conf with
  | nil => simp at h
  | cons q rest ih =>
    rcases h with ⟨p, hp, hpd⟩
    rcases List.mem_cons.mp hp with heq | hrest
    · have hq1 : q.1 = d := by rw [← heq]; exact hpd
      have hmono := entriesLE_mono rest (show d - 1 ≤ d by omega)
      rw [entriesLE_cons, entriesLE_cons, if_pos (show q.1 ≤ d by omega),
        if_neg (show ¬ q.1 ≤ d - 1 by omega)]
      omega
    · have hlt := ih ⟨p, hrest, hpd⟩
      rw [entriesLE_cons, entriesLE_cons]
      by_cases hq1 : q.1 ≤ d - 1
      · rw [if_pos hq1, if_pos (show q.1 ≤ d by omega)]; omega
      · by_cases hq2 : q.1 ≤ d
        · rw [if_pos hq2, if_neg hq1]; omega
        · rw [if_neg hq2, if_neg hq1]; omega

theorem entriesLE_pos {conf : ConfMap} {d : Int} {uid : UserId}
    (h : confGet conf d uid = true) : 1 ≤ entriesLE conf d := by
  have := entriesLE_lt (confGet_exists_entry h)
  omega

theorem streakWalk_stable {conf : ConfMap} {uid : UserId} :
    ∀ f1 f2 : Nat, ∀ d : Int, entriesLE conf d ≤ f1 → entriesLE conf d ≤ f2 →
      streakWalk conf uid f1 d = streakWalk conf uid f2 d := by
  intro f1
  induction f1 with
  | zero =>
    intro f2 d h1 _
    have hfalse : confGet conf d uid = false := by
      rcases hc : confGet conf d uid with _ | _
      · rfl
      · have := entriesLE_pos hc; omega
    cases f2 with
    | zero => rfl
    | succ g => simp [streakWalk, hfalse]
  | succ g1 ih =>
    intro f2 d h1 h2
    rcases hc : confGet conf d uid with _ | _
    · cases f2 with
      | zero => simp [streakWalk, hc]
      | succ g2 => simp [streakWalk, hc]
    · have hpos := entriesLE_pos hc
      have hlt := entriesLE_lt (confGet_exists_entry hc)
      cases f2 with
      | zero => omega
      | succ g2 =>
        simp only [streakWalk, hc, if_true]
        rw [ih g2 (d - 1) (by omega) (by omega)]

theorem entriesLE_le_length (conf : ConfMap) (d : Int) :
    entriesLE conf d ≤ conf.length :=
  List.length_filter_le _ _

/-- The defining equation of the `_rotina_user_streak` while-loop. -/
theorem rotina_user_streak_unfold (conf : ConfMap) (uid : UserId) (d : Int) :
    rotina_user_streak conf uid d =
      if confGet conf d uid then rotina_user_streak conf uid (d - 1) + 1 else 0 := by
  unfold rotina_user_streak
  by_cases hc : confGet conf d uid = true
  · have hpos := entriesLE_pos hc
    have hlen := entriesLE_le_length conf d
    have hlt := entriesLE_lt (confGet_exists_entry hc)
    rw [if_pos hc]
    rcases hl : conf.length with _ | g
    · omega
    · have hstep : streakWalk conf uid (g + 1) d = streakWalk conf uid g (d - 1) + 1 := by
        simp [streakWalk, hc]
      rw [hstep,
        @streakWalk_stable conf uid g (g + 1) (d - 1) (by omega) (by omega)]
  · have hc' : confGet conf d uid = false := by
      rcases hcc : confGet conf d uid with _ | _
      · rfl
      · exact absurd hcc hc
    rw [if_neg hc]
    rcases hl : conf.length with _ | g
    · rfl
    · simp [streakWalk, hc']

theorem rotina_user_streak_of_not_confirmed {conf : ConfMap} {uid : UserId} {d : Int}
    (h : confGet conf d uid = false) : rotina_user_streak conf uid d = 0 := by
  rw [rotina_user_streak_unfold, h]; rfl

theorem rotina_user_streak_of_confirmed {conf : ConfMap} {uid : UserId} {d : Int}
    (h : confGet conf d uid = true) :
    rotina_user_streak conf uid d = rotina_user_streak conf uid (d - 1) + 1 := by
  rw [rotina_user_streak_unfold, h]; rfl

/-! ## Claim C3: one pomodoro phase transition per expiring tick -/

/-- Claim C3: for an active, unpaused session whose remaining time reaches 0
or less on a tick (with a resolvable channel and a positive
`cycles_before_long`), the tick performs exactly one phase transition: from
focus the cycle count is incremented and the next phase is the long break
exactly when the incremented count is a multiple of `cycles_before_long`,
both breaks return to focus, and the remaining time is reset to the full
configured duration of the new phase — the overshoot is absorbed, so no
second transition can happen in the same tick. -/
theorem c3_pomodoro_single_transition (cfg : PomConfig) (s : PomSession) (now : Int)
    (hact : s.active = true) (hpau : s.paused = false)
    (hdelta : 0 < now - s.last_ts) (hexp : s.remaining - (now - s.last_ts) ≤ 0)
    (hcbl : 1 ≤ cfg.cycles_before_long) :
    pomodoroTick cfg true s now =
      advancePomodoro cfg
        { s with remaining := max 0 (s.remaining - (now - s.last_ts)), last_ts := now } now
    ∧ (s.phase = Phase.foco →
        (pomodoroTick cfg true s now).cycle = s.cycle + 1
        ∧ ((s.cycle + 1) % cfg.cycles_before_long = 0 →
            (pomodoroTick cfg true s now).phase = Phase.pausa_longa
            ∧ (pomodoroTick cfg true s now).remaining = cfg.long_break_seconds)
        ∧ ((s.cycle + 1) % cfg.cycles_before_long ≠ 0 →
            (pomodoroTick cfg true s now).phase = Phase.pausa_curta
            ∧ (pomodoroTick cfg true s now).remaining = cfg.short_break_seconds))
    ∧ (s.phase = Phase.pausa_curta →
        (pomodoroTick cfg true s now).phase = Phase.foco
        ∧ (pomodoroTick cfg true s now).remaining = cfg.focus_seconds
        ∧ (pomodoroTick cfg true s now).cycle = s.cycle)
    ∧ (s.phase = Phase.pausa_longa →
        (pomodoroTick cfg true s now).phase = Phase.foco
        ∧ (pomodoroTick cfg true s now).remaining = cfg.focus_seconds
        ∧ (pomodoroTick cfg true s now).cycle = s.cycle)
    ∧ (pomodoroTick cfg true s now).last_ts = now := by
  have hmaxcbl : max 1 cfg.cycles_before_long = cfg.cycles_before_long := by omega
  have hmax0 : max 0 (s.remaining - (now - s.last_ts)) = 0 := by omega
  have htick : pomodoroTick cfg true s now =
      advancePomodoro cfg
        { s with remaining := max 0 (s.remaining - (now - s.last_ts)), last_ts := now } now := by
    simp only [pomodoroTick, hact, hpau, Bool.not_true, Bool.false_eq_true, if_false]
    rw [if_neg (show ¬ now - s.last_ts ≤ 0 by omega)]
    rw [if_pos (show max 0 (s.remaining - (now - s.last_ts)) ≤ 0 by omega)]
    simp
  refine ⟨htick, ?_, ?_, ?_, ?_⟩
  · intro hph
    rw [htick]
    unfold advancePomodoro
    simp only [hph, hmaxcbl]
    rcases Decidable.em ((s.cycle + 1) % cfg.cycles_before_long = 0) with hz | hz
    · simp [hz]
    · simp [hz]
  · intro hph; rw [htick]; unfold advancePomodoro; simp [hph]
  · intro hph; rw [htick]; unfold advancePomodoro; simp [hph]
  · rw [htick]; unfold advancePomodoro
    rcases hph : s.phase with _ | _ | _
    · simp only [hph]
      rcases Decidable.em ((s.cycle + 1) % max 1 cfg.cycles_before_long = 0) with hz | hz <;>
        simp [hz]
    · simp [hph]
    · simp [hph]

theorem c3_pomodoro_single_transition_witness :
    (pomodoroTick ⟨1500, 300, 900, 4⟩ true ⟨true, Phase.foco, 10, 0, false, 100⟩ 120).phase
        = Phase.pausa_curta
    ∧ (pomodoroTick ⟨1500, 300, 900, 4⟩ true ⟨true, Phase.foco, 10, 0, false, 100⟩ 120).remaining
        = 300 := by
  have h := c3_pomodoro_single_transition ⟨1500, 300, 900, 4⟩
    ⟨true, Phase.foco, 10, 0, false, 100⟩ 120 (by decide) (by decide)
    (by decide) (by decide) (by decide)
  exact (h.2.1 rfl).2.2 (by decide)

/-! ## Claim C9: repeated pause -/

/-- Claim C9 counterexample: pausing an already-paused session is not a
state-level no-op — `_set_pomodoro_pause` unconditionally re-stamps
`last_ts`, so the stored session changes. -/
theorem c9_counterexample :
    setPomodoroPause ⟨true, Phase.foco, 100, 0, true, 100⟩ true 200
      ≠ ⟨true, Phase.foco, 100, 0, true, 100⟩ := by
  decide

/-- Claim C9 (amended): pausing an already-paused session leaves the pause
flag, phase, remaining seconds, cycle count and active flag unchanged and
only re-stamps `last_ts` to the current time; repeating the pause at the same
timestamp is idempotent, and the tick loop skips paused sessions, so the
re-stamp is observationally a no-op for the timer. -/
theorem c9_pause_preserves_state (s : PomSession) (now : Int) (h : s.paused = true) :
    (setPomodoroPause s true now).paused = s.paused
    ∧ (setPomodoroPause s true now).phase = s.phase
    ∧ (setPomodoroPause s true now).remaining = s.remaining
    ∧ (setPomodoroPause s true now).cycle = s.cycle
    ∧ (setPomodoroPause s true now).active = s.active
    ∧ (setPomodoroPause s true now).last_ts = now
    ∧ setPomodoroPause (setPomodoroPause s true now) true now = setPomodoroPause s true now
    ∧ ∀ (cfg : PomConfig) (channelOk : Bool) (t : Int),
        pomodoroTick cfg channelOk (setPomodoroPause s true now) t
          = setPomodoroPause s true now := by
  refine ⟨by simp [setPomodoroPause, h], rfl, rfl, rfl, rfl, rfl, rfl, ?_⟩
  intro cfg channelOk t
  unfold pomodoroTick
  rcases ha : (setPomodoroPause s true now).active with _ | _
  · simp [ha]
  · simp [ha, setPomodoroPause]

theorem c9_pause_preserves_state_witness :
    (setPomodoroPause ⟨true, Phase.foco, 100, 0, true, 100⟩ true 200).remaining = 100
    ∧ pomodoroTick ⟨1500, 300, 900, 4⟩ true
        (setPomodoroPause ⟨true, Phase.foco, 100, 0, true, 100⟩ true 200) 500
      = setPomodoroPause ⟨true, Phase.foco, 100, 0, true, 100⟩ true 200 := by
  have h := c9_pause_preserves_state ⟨true, Phase.foco, 100, 0, true, 100⟩ 200 (by decide)
  exact ⟨h.2.2.1, h.2.2.2.2.2.2.2 ⟨1500, 300, 900, 4⟩ true 500⟩

/-! ## Claim C6: at-most-once reminder delivery -/

theorem reminderTick_sent_before (env : ReminderEnv) (now : Int) (r : Reminder)
    (h : (reminderTick env now r).2 = true) : r.delivered = false ∧ r.when_ts ≤ now := by
  unfold reminderTick at h
  by_cases hg : (!r.delivered && decide (r.when_ts ≤ now)) = true
  · simp only [Bool.and_eq_true, Bool.not_eq_true', decide_eq_true_eq] at hg
    exact hg
  · rw [if_neg hg] at h
    simp at h

theorem reminderTick_sent_after (env : ReminderEnv) (now : Int) (r : Reminder)
    (h : (reminderTick env now r).2 = true) : (reminderTick env now r).1.delivered = true := by
  unfold reminderTick at h ⊢
  by_cases hg : (!r.delivered && decide (r.when_ts ≤ now)) = true
  · rw [if_pos hg] at h ⊢
    by_cases he : env.userResolvable = true
    · rw [if_pos he] at h ⊢
      by_cases hs : env.sendOk = true
      · rw [if_pos hs]
      · rw [if_neg hs] at h; simp at h
    · rw [if_neg he] at h; simp at h
  · rw [if_neg hg] at h; simp at h

theorem reminderStep_mono (r : Reminder) (op : ReminderOp) (h : r.delivered = true) :
    (reminderStep r op).1.delivered = true := by
  rcases op with ⟨env, now⟩ | ⟨u, i⟩
  · simp [reminderStep, reminderTick, h]
  · simp only [reminderStep, cancelReminder]
    by_cases hm : (r.id == i && r.user_id == u) = true
    · rw [if_pos hm]
    · rw [if_neg hm]; exact h

theorem reminderStep_sent (r : Reminder) (op : ReminderOp)
    (h : (reminderStep r op).2 = true) :
    r.delivered = false ∧ (reminderStep r op).1.delivered = true := by
  rcases op with ⟨env, now⟩ | ⟨u, i⟩
  · exact ⟨(reminderTick_sent_before env now r h).1, reminderTick_sent_after env now r h⟩
  · simp [reminderStep] at h

theorem reminderRun_aux (ops : List ReminderOp) :
    ∀ (r : Reminder) (c : Nat), (r.delivered = false → c = 0) → c ≤ 1 →
      (ops.foldl
        (fun st op =>
          let next := reminderStep st.1 op
          (next.1, st.2 + if next.2 then 1 else 0))
        (r, c)).2 ≤ 1 := by
  induction ops with
  | nil => intro r c _ hc; simpa using hc
  | cons op rest ih =>
    intro r c hzero hc
    simp only [List.foldl_cons]
    by_cases hs : (reminderStep r op).2 = true
    · have hb := (reminderStep_sent r op hs).1
      have hafter := (reminderStep_sent r op hs).2
      have hc0 : c = 0 := hzero hb
      simp only [hs, if_true, hc0]
      exact ih _ _ (fun hfalse => by rw [hafter] at hfalse; cases hfalse) (by omega)
    · simp only [if_neg hs, Nat.add_zero]
      apply ih _ _ _ hc
      intro hfalse
      apply hzero
      by_cases hd : r.delivered = true
      · rw [reminderStep_mono r op hd] at hfalse; cases hfalse
      · simpa using hd

/-- Claim C6: the delivery loop only attempts a reminder while `delivered` is
false and `fire_at ≤ now`; a successful delivery and a matching cancellation
both set `delivered`; no reminder operation ever resets `delivered` to false;
consequently any sequence of ticks and cancellations delivers at most once. -/
theorem c6_reminder_at_most_once :
    (∀ (env : ReminderEnv) (now : Int) (r : Reminder),
        (reminderTick env now r).2 = true → r.delivered = false ∧ r.when_ts ≤ now)
    ∧ (∀ (env : ReminderEnv) (now : Int) (r : Reminder),
        (reminderTick env now r).2 = true → (reminderTick env now r).1.delivered = true)
    ∧ (∀ (u : UserId) (i : Nat) (r : Reminder), r.id = i → r.user_id = u →
        (cancelReminder u i r).delivered = true)
    ∧ (∀ (r : Reminder) (op : ReminderOp), r.delivered = true →
        (reminderStep r op).1.delivered = true)
    ∧ (∀ (r : Reminder) (ops : List ReminderOp), (reminderRun r ops).2 ≤ 1) := by
  refine ⟨?_, ?_, ?_, reminderStep_mono, ?_⟩
  · exact fun env now r h => reminderTick_sent_before env now r h
  · exact fun env now r h => reminderTick_sent_after env now r h
  · intro u i r h1 h2
    simp only [cancelReminder]
    rw [if_pos (by simp [h1, h2])]
  · intro r ops
    unfold reminderRun
    exact reminderRun_aux ops r 0 (fun _ => rfl) (by omega)

theorem c6_reminder_at_most_once_witness :
    (reminderRun ⟨1, 7, 50, "agua", false, 0⟩
        [ReminderOp.tick ⟨true, true⟩ 60, ReminderOp.tick ⟨true, true⟩ 90,
          ReminderOp.cancel 7 1]).2 ≤ 1
    ∧ (cancelReminder 7 1 ⟨1, 7, 50, "agua", false, 0⟩).delivered = true := by
  exact ⟨c6_reminder_at_most_once.2.2.2.2 _ _,
    c6_reminder_at_most_once.2.2.1 7 1 ⟨1, 7, 50, "agua", false, 0⟩ rfl rfl⟩

/-! ## Claim C8: DM-blocked backoff -/

/-- Claim C8: a refused DM marks the user blocked with
`retry_after = now + 300`; while `now < retry_after`, both the habit engine
and the routine nudge engine treat an otherwise-due user as not due (the
check ends in a skip, no send is attempted) and raise the stored
`next_due_at` to at least `retry_after`. -/
theorem c8_dm_backoff :
    (∀ t : Int, (handleDmBlocked t).blocked = true ∧ (handleDmBlocked t).next_check = t + 300)
    ∧ (∀ (env : NudgeEnv) (t now : Int) (h : Habit),
        env.memberPresent = true → env.userResolvable = true →
        h.active = true → h.progress_today < max 1 h.goal_per_day →
        ¬(h.next_ts ≠ 0 ∧ now < h.next_ts) →
        0 ≤ t → now < t + 300 →
        (habitoCheck env (handleDmBlocked t) now h).2 = NudgeOutcome.skip
        ∧ t + 300 ≤ (habitoCheck env (handleDmBlocked t) now h).1.next_ts)
    ∧ (∀ (env : NudgeEnv) (t now : Int) (confirmed inQuiet : Bool) (p : RotinaPrefs),
        env.memberPresent = true →
        p.dm = true → confirmed = false →
        ¬(p.snooze_until ≠ 0 ∧ now < p.snooze_until) →
        ¬(p.next_ts ≠ 0 ∧ now < p.next_ts) →
        0 ≤ t → now < t + 300 →
        (rotinaUserCheck env (handleDmBlocked t) now confirmed inQuiet p).2
            = NudgeOutcome.skip
        ∧ t + 300 ≤
            (rotinaUserCheck env (handleDmBlocked t) now confirmed inQuiet p).1.next_ts) := by
  refine ⟨fun t => ⟨rfl, rfl⟩, ?_, ?_⟩
  · intro env t now h hmem husr hact hprog hnext ht hnow
    have hred : habitoCheck env (handleDmBlocked t) now h =
        (if h.next_ts < t + 300 then { h with next_ts := t + 300 } else h,
          NudgeOutcome.skip) := by
      unfold habitoCheck
      rw [if_neg (show ¬ (!h.active) = true by simp [hact]),
        if_neg (show ¬ max 1 h.goal_per_day ≤ h.progress_today by omega),
        if_neg hnext,
        if_neg (show ¬ (!env.memberPresent) = true by simp [hmem]),
        if_neg (show ¬ (!env.userResolvable) = true by simp [husr])]
      simp only [dmBlockedUntil, handleDmBlocked, if_true]
      rw [if_pos (show t + 300 ≠ 0 ∧ now < t + 300 by omega)]
    rw [hred]
    refine ⟨rfl, ?_⟩
    by_cases hlt : h.next_ts < t + 300
    · rw [if_pos hlt]
    · rw [if_neg hlt]
      show t + 300 ≤ h.next_ts
      omega
  · intro env t now confirmed inQuiet p hmem hdm hconf hsnz hnext ht hnow
    have hp1 : (if p.snooze_until ≠ 0 then { p with snooze_until := 0 } else p).next_ts
        = p.next_ts := by
      by_cases hs0 : p.snooze_until ≠ 0
      · rw [if_pos hs0]
      · rw [if_neg hs0]
    have hred : rotinaUserCheck env (handleDmBlocked t) now confirmed inQuiet p =
        (if (if p.snooze_until ≠ 0 then { p with snooze_until := 0 } else p).next_ts < t + 300
            then { (if p.snooze_until ≠ 0 then { p with snooze_until := 0 } else p) with
                     next_ts := t + 300 }
            else (if p.snooze_until ≠ 0 then { p with snooze_until := 0 } else p),
          NudgeOutcome.skip) := by
      unfold rotinaUserCheck
      rw [if_neg (show ¬ (!p.dm) = true by simp [hdm]),
        if_neg (show ¬ confirmed = true by simp [hconf]),
        if_neg hsnz,
        if_neg (show ¬ (!env.memberPresent) = true by simp [hmem]),
        if_neg (show
          ¬ ((if p.snooze_until ≠ 0 then { p with snooze_until := 0 } else p).next_ts ≠ 0
            ∧ now < (if p.snooze_until ≠ 0 then { p with snooze_until := 0 } else p).next_ts)
          by rw [hp1]; exact hnext)]
      simp only [dmBlockedUntil, handleDmBlocked, if_true]
      rw [if_pos (show t + 300 ≠ 0 ∧ now < t + 300 by omega)]
    rw [hred]
    refine ⟨rfl, ?_⟩
    by_cases hlt :
        (if p.snooze_until ≠ 0 then { p with snooze_until := 0 } else p).next_ts < t + 300
    · rw [if_pos hlt]
    · rw [if_neg hlt]
      rw [hp1] at hlt
      show t + 300 ≤ (if p.snooze_until ≠ 0 then { p with snooze_until := 0 } else p).next_ts
      rw [hp1]
      omega

theorem c8_dm_backoff_witness :
    (handleDmBlocked 1000).next_check = 1300
    ∧ (habitoCheck ⟨true, true⟩ (handleDmBlocked 1000) 1100
        ⟨true, 3, 0, 900, 60⟩).2 = NudgeOutcome.skip
    ∧ 1300 ≤ (habitoCheck ⟨true, true⟩ (handleDmBlocked 1000) 1100
        ⟨true, 3, 0, 900, 60⟩).1.next_ts
    ∧ (rotinaUserCheck ⟨true, true⟩ (handleDmBlocked 1000) 1100 false true
        ⟨true, 90, 0, 0⟩).2 = NudgeOutcome.skip
    ∧ 1300 ≤ (rotinaUserCheck ⟨true, true⟩ (handleDmBlocked 1000) 1100 false true
        ⟨true, 90, 0, 0⟩).1.next_ts := by
  have hh := c8_dm_backoff.2.1 ⟨true, true⟩ 1000 1100 ⟨true, 3, 0, 900, 60⟩
    rfl rfl rfl (by decide) (by decide) (by decide) (by decide)
  have hr := c8_dm_backoff.2.2 ⟨true, true⟩ 1000 1100 false true ⟨true, 90, 0, 0⟩
    rfl rfl rfl (by decide) (by decide) (by decide) (by decide)
  exact ⟨(c8_dm_backoff.1 1000).2, hh.1, hh.2, hr.1, hr.2⟩

/-! ## Claim C5: announcement de-duplication -/

theorem lookupAnn_setAnn_self (ann : AnnMap) (day : Int) (v : DailyAnn) :
    lookupAnn (setAnn ann day v) day = some v := by
  induction ann with
  | nil => simp [setAnn, lookupAnn, List.find?_cons]
  | cons p rest ih =>
    by_cases hp : p.1 = day
    · simp [setAnn, hp, lookupAnn, List.find?_cons]
    · have hbeq : (p.1 == day) = false := by simp [hp]
      simp only [setAnn, hbeq, Bool.false_eq_true, if_false]
      simpa [lookupAnn, List.find?_cons, hbeq] using ih

theorem lookupAnn_setAnn_ne (ann : AnnMap) (day d : Int) (v : DailyAnn) (h : d ≠ day) :
    lookupAnn (setAnn ann day v) d = lookupAnn ann d := by
  have hday : (day == d) = false := by simp; omega
  induction ann with
  | nil => simp [setAnn, lookupAnn, List.find?_cons, hday]
  | cons p rest ih =>
    by_cases hp : p.1 = day
    · have hpd : (p.1 == d) = false := by simp [hp]; omega
      simp [setAnn, hp, lookupAnn, List.find?_cons, hday, hpd]
    · have hbeq : (p.1 == day) = false := by simp [hp]
      by_cases hpd : p.1 = d
      · simp [setAnn, hbeq, lookupAnn, List.find?_cons, hpd, h]
      · have hpd' : (p.1 == d) = false := by simp [hpd]
        simp only [setAnn, hbeq, Bool.false_eq_true, if_false]
        simpa [lookupAnn, List.find?_cons, hpd'] using ih

theorem lookupSlot_setAnn_slots (a : AnnMap) (day : Int) (m : List (String × AnnInfo))
    (s : String) :
    lookupSlot (setAnn a day (DailyAnn.slots m)) day s
      = (m.find? (fun q => q.1 == s)).map Prod.snd := by
  simp [lookupSlot, lookupAnn_setAnn_self]

theorem find?_append_isSome (daily : List (String × AnnInfo)) (e s : String) (i : AnnInfo) :
    (((daily ++ [(e, i)]).find? (fun q => q.1 == s)).isSome)
      = (((daily.find? (fun q => q.1 == s)).isSome) || (e == s)) := by
  rw [List.find?_append]
  rcases hd : daily.find? (fun q => q.1 == s) with _ | q
  · rcases he : (e == s) with _ | _ <;> simp [List.find?_cons, he]
  · simp [hd]

theorem annCore_invariant (env : AnnEnv) (day : Int) (ann0 : AnnMap)
    (c : List String) (daily : List (String × AnnInfo)) (e s : String)
    (res : AnnMap × List String)
    (hres : res =
      (if (daily.find? (fun q => q.1 == e)).isSome then
        (setAnn ann0 day (DailyAnn.slots daily), c)
      else if env.sendOk e then
        (setAnn (setAnn ann0 day (DailyAnn.slots daily)) day
          (DailyAnn.slots (daily ++ [(e, ⟨env.newMessageId e, env.nowTs⟩)])), c ++ [e])
      else (setAnn ann0 day (DailyAnn.slots daily), c)))
    (hP : (if (lookupSlot ann0 day s).isSome then 1 else 0)
        ≤ (if ((daily.find? (fun q => q.1 == s)).isSome) then 1 else 0)) :
    res.2.count s + (if (lookupSlot ann0 day s).isSome then 1 else 0)
      ≤ c.count s + (if (lookupSlot res.1 day s).isSome then 1 else 0) := by
  subst hres
  by_cases hfe : (daily.find? (fun q => q.1 == e)).isSome = true
  · rw [if_pos hfe]
    simp only [lookupSlot_setAnn_slots, Option.isSome_map']
    omega
  · rw [if_neg hfe]
    by_cases hsend : env.sendOk e = true
    · rw [if_pos hsend]
      simp only [lookupSlot_setAnn_slots, Option.isSome_map', List.count_append,
        find?_append_isSome]
      by_cases hes : e = s
      · have hfs : (daily.find? (fun q => q.1 == s)).isSome = false := by
          subst hes
          rcases hb : (daily.find? (fun q => q.1 == e)).isSome with _ | _
          · exact hb
          · exact absurd hb hfe
        have hes' : (e == s) = true := by simp [hes]
        have hnone : (lookupSlot ann0 day s).isSome = false := by
          rcases hb : (lookupSlot ann0 day s).isSome with _ | _
          · rfl
          · simp only [hb, hfs] at hP
            simp at hP
        rw [List.count_cons, List.count_nil, hnone, hfs, hes']
        simp
      · have hes' : (e == s) = false := by simp [hes]
        rw [List.count_cons, List.count_nil, hes']
        simp only [Bool.or_false, Bool.false_eq_true, if_false, Nat.add_zero]
        omega
    · rw [if_neg hsend]
      simp only [lookupSlot_setAnn_slots, Option.isSome_map']
      omega

theorem annSlotStep_invariant (env : AnnEnv) (day : Int) (st : AnnMap × List String)
    (e s : String) :
    (annSlotStep env day st e).2.count s
      + (if (lookupSlot st.1 day s).isSome then 1 else 0)
    ≤ st.2.count s
      + (if (lookupSlot (annSlotStep env day st e).1 day s).isSome then 1 else 0) := by
  rcases hp : parse_hhmm e with _ | hm
  · simp [annSlotStep, hp]
  · by_cases hmin : env.nowHour = hm.1 ∧ env.nowMinute = hm.2
    · rcases hla : lookupAnn st.1 day with _ | dv
      · refine annCore_invariant env day st.1 st.2 [] e s _ ?_ ?_
        · simp only [annSlotStep, hp]
          rw [if_pos hmin]
          simp only [hla]
        · simp [lookupSlot, hla]
      · rcases dv with info | m
        · refine annCore_invariant env day st.1 st.2 [("__legacy__", info)] e s _ ?_ ?_
          · simp only [annSlotStep, hp]
            rw [if_pos hmin]
            simp only [hla]
          · simp [lookupSlot, hla]
        · refine annCore_invariant env day st.1 st.2 m e s _ ?_ ?_
          · simp only [annSlotStep, hp]
            rw [if_pos hmin]
            simp only [hla]
          · simp only [lookupSlot, hla, Option.isSome_map']
            omega
    · simp [annSlotStep, hp, hmin]

theorem lookupSlot_setAnn_ne (a : AnnMap) (t day : Int) (v : DailyAnn) (s : String)
    (h : day ≠ t) : lookupSlot (setAnn a t v) day s = lookupSlot a day s := by
  unfold lookupSlot
  rw [lookupAnn_setAnn_ne a t day v h]

theorem annCore_fst_other (env : AnnEnv) (t : Int) (ann0 : AnnMap) (c : List String)
    (daily : List (String × AnnInfo)) (e : String) (res : AnnMap × List String)
    (hres : res =
      (if (daily.find? (fun q => q.1 == e)).isSome then
        (setAnn ann0 t (DailyAnn.slots daily), c)
      else if env.sendOk e then
        (setAnn (setAnn ann0 t (DailyAnn.slots daily)) t
          (DailyAnn.slots (daily ++ [(e, ⟨env.newMessageId e, env.nowTs⟩)])), c ++ [e])
      else (setAnn ann0 t (DailyAnn.slots daily), c)))
    (day : Int) (s : String) (ht : day ≠ t) :
    lookupSlot res.1 day s = lookupSlot ann0 day s := by
  subst hres
  by_cases hfe : (daily.find? (fun q => q.1 == e)).isSome = true
  · rw [if_pos hfe]
    exact lookupSlot_setAnn_ne ann0 t day _ s ht
  · rw [if_neg hfe]
    by_cases hsend : env.sendOk e = true
    · rw [if_pos hsend]
      show lookupSlot (setAnn (setAnn ann0 t _) t _) day s = _
      rw [lookupSlot_setAnn_ne _ t day _ s ht, lookupSlot_setAnn_ne ann0 t day _ s ht]
    · rw [if_neg hsend]
      exact lookupSlot_setAnn_ne ann0 t day _ s ht

theorem annCore_pres_same (env : AnnEnv) (t : Int) (ann0 : AnnMap) (c : List String)
    (daily : List (String × AnnInfo)) (e : String) (res : AnnMap × List String)
    (hres : res =
      (if (daily.find? (fun q => q.1 == e)).isSome then
        (setAnn ann0 t (DailyAnn.slots daily), c)
      else if env.sendOk e then
        (setAnn (setAnn ann0 t (DailyAnn.slots daily)) t
          (DailyAnn.slots (daily ++ [(e, ⟨env.newMessageId e, env.nowTs⟩)])), c ++ [e])
      else (setAnn ann0 t (DailyAnn.slots daily), c)))
    (s : String) (hP : (daily.find? (fun q => q.1 == s)).isSome = true) :
    (lookupSlot res.1 t s).isSome = true := by
  subst hres
  by_cases hfe : (daily.find? (fun q => q.1 == e)).isSome = true
  · rw [if_pos hfe]
    simp [lookupSlot_setAnn_slots, Option.isSome_map', hP]
  · rw [if_neg hfe]
    by_cases hsend : env.sendOk e = true
    · rw [if_pos hsend]
      show (lookupSlot (setAnn (setAnn ann0 t _) t _) t s).isSome = true
      simp [lookupSlot_setAnn_slots, Option.isSome_map', find?_append_isSome, hP]
    · rw [if_neg hsend]
      simp [lookupSlot_setAnn_slots, Option.isSome_map', hP]

theorem annSlotStep_pres_mono (env : AnnEnv) (t : Int) (st : AnnMap × List String)
    (e : String) (day : Int) (s : String)
    (h : (lookupSlot st.1 day s).isSome = true) :
    (lookupSlot (annSlotStep env t st e).1 day s).isSome = true := by
  rcases hp : parse_hhmm e with _ | hm
  · simpa [annSlotStep, hp] using h
  · by_cases hmin : env.nowHour = hm.1 ∧ env.nowMinute = hm.2
    · rcases hla : lookupAnn st.1 t with _ | dv
      · have hres : annSlotStep env t st e =
            (if (([] : List (String × AnnInfo)).find? (fun q => q.1 == e)).isSome then
              (setAnn st.1 t (DailyAnn.slots []), st.2)
            else if env.sendOk e then
              (setAnn (setAnn st.1 t (DailyAnn.slots [])) t
                (DailyAnn.slots ([] ++ [(e, ⟨env.newMessageId e, env.nowTs⟩)])), st.2 ++ [e])
            else (setAnn st.1 t (DailyAnn.slots []), st.2)) := by
          simp only [annSlotStep, hp]
          rw [if_pos hmin]
          simp only [hla]
        by_cases ht : day = t
        · subst ht
          rw [show lookupSlot st.1 day s = none by simp [lookupSlot, hla]] at h
          cases h
        · rw [annCore_fst_other env t st.1 st.2 [] e _ hres day s ht]
          exact h
      · rcases dv with info | m
        · have hres : annSlotStep env t st e =
              (if ([("__legacy__", info)].find? (fun q => q.1 == e)).isSome then
                (setAnn st.1 t (DailyAnn.slots [("__legacy__", info)]), st.2)
              else if env.sendOk e then
                (setAnn (setAnn st.1 t (DailyAnn.slots [("__legacy__", info)])) t
                  (DailyAnn.slots ([("__legacy__", info)]
                    ++ [(e, ⟨env.newMessageId e, env.nowTs⟩)])), st.2 ++ [e])
              else (setAnn st.1 t (DailyAnn.slots [("__legacy__", info)]), st.2)) := by
            simp only [annSlotStep, hp]
            rw [if_pos hmin]
            simp only [hla]
          by_cases ht : day = t
          · subst ht
            rw [show lookupSlot st.1 day s = none by simp [lookupSlot, hla]] at h
            cases h
          · rw [annCore_fst_other env t st.1 st.2 [("__legacy__", info)] e _ hres day s ht]
            exact h
        · have hres : annSlotStep env t st e =
              (if (m.find? (fun q => q.1 == e)).isSome then
                (setAnn st.1 t (DailyAnn.slots m), st.2)
              else if env.sendOk e then
                (setAnn (setAnn st.1 t (DailyAnn.slots m)) t
                  (DailyAnn.slots (m ++ [(e, ⟨env.newMessageId e, env.nowTs⟩)])), st.2 ++ [e])
              else (setAnn st.1 t (DailyAnn.slots m), st.2)) := by
            simp only [annSlotStep, hp]
            rw [if_pos hmin]
            simp only [hla]
          by_cases ht : day = t
          · subst ht
            have hfind : (m.find? (fun q => q.1 == s)).isSome = true := by
              have : lookupSlot st.1 day s = (m.find? (fun q => q.1 == s)).map Prod.snd := by
                simp [lookupSlot, hla]
              rw [this, Option.isSome_map'] at h
              exact h
            exact annCore_pres_same env day st.1 st.2 m e _ hres s hfind
          · rw [annCore_fst_other env t st.1 st.2 m e _ hres day s ht]
            exact h
    · simpa [annSlotStep, hp, hmin] using h

theorem annFold_invariant (env : AnnEnv) (day : Int) (s : String) :
    ∀ (times : List String) (st : AnnMap × List String),
      (times.foldl (annSlotStep env day) st).2.count s
        + (if (lookupSlot st.1 day s).isSome then 1 else 0)
      ≤ st.2.count s
        + (if (lookupSlot ((times.foldl (annSlotStep env day) st).1) day s).isSome
            then 1 else 0) := by
  intro times
  induction times with
  | nil => intro st; simp
  | cons e rest ih =>
    intro st
    simp only [List.foldl_cons]
    have h1 := annSlotStep_invariant env day st e s
    have h2 := ih (annSlotStep env day st e)
    omega

theorem annFold_pres_mono (env : AnnEnv) (t day : Int) (s : String) :
    ∀ (times : List String) (st : AnnMap × List String),
      (lookupSlot st.1 day s).isSome = true →
      (lookupSlot ((times.foldl (annSlotStep env t) st).1) day s).isSome = true := by
  intro times
  induction times with
  | nil => intro st h; simpa using h
  | cons e rest ih =>
    intro st h
    simp only [List.foldl_cons]
    exact ih _ (annSlotStep_pres_mono env t st e day s h)

theorem count_map_pair (c : Int) (l : List String) (d : Int) (s : String) :
    (l.map (fun x => (c, x))).count (d, s) = if c = d then l.count s else 0 := by
  induction l with
  | nil => simp
  | cons x xs ih =>
    simp only [List.map_cons, List.count_cons, ih]
    by_cases hcd : c = d
    · by_cases hxs : x = s
      · simp [hcd, hxs, Prod.ext_iff]
      · simp [hcd, hxs, Prod.ext_iff]
    · simp [hcd, Prod.ext_iff]

theorem annRun_aux (times : List String) (day : Int) (s : String) :
    ∀ (ticks : List (AnnEnv × Int)) (a : AnnMap) (acc : List (Int × String)),
      (annRunGo times a acc ticks).2.count (day, s)
        + (if (lookupSlot a day s).isSome then 1 else 0)
      ≤ acc.count (day, s)
        + (if (lookupSlot ((annRunGo times a acc ticks).1) day s).isSome then 1 else 0) := by
  intro ticks
  induction ticks with
  | nil => intro a acc; simp [annRunGo]
  | cons tick rest ih =>
    intro a acc
    simp only [annRunGo]
    have hstep :
        (acc ++ (annTick tick.1 times tick.2 a).2.map
            (fun slot => (tick.2, slot))).count (day, s)
          + (if (lookupSlot a day s).isSome then 1 else 0)
        ≤ acc.count (day, s)
          + (if (lookupSlot ((annTick tick.1 times tick.2 a).1) day s).isSome
              then 1 else 0) := by
      rw [List.count_append, count_map_pair]
      by_cases htd : tick.2 = day
      · subst htd
        have h := annFold_invariant tick.1 tick.2 s times (a, [])
        simp only [List.count_nil] at h
        rw [if_pos rfl]
        unfold annTick
        omega
      · rw [if_neg htd]
        by_cases hpres : (lookupSlot a day s).isSome = true
        · have := annFold_pres_mono tick.1 tick.2 day s times (a, []) hpres
          unfold annTick
          rw [hpres, this]
          omega
        · have hfalse : (lookupSlot a day s).isSome = false := by
            rcases hb : (lookupSlot a day s).isSome with _ | _
            · rfl
            · exact absurd hb hpres
          rw [hfalse]
          simp only [Bool.false_eq_true, if_false, Nat.add_zero]
          omega
    have htail := ih (annTick tick.1 times tick.2 a).1
      (acc ++ (annTick tick.1 times tick.2 a).2.map (fun slot => (tick.2, slot)))
    omega

/-- Claim C5: across any sequence of announcement ticks, at most one
announcement entry is ever created for a given (day, slot) pair, no matter
how many ticks observe the matching minute or how sends fail and are
retried. -/
theorem c5_announce_at_most_once (times : List String) (ticks : List (AnnEnv × Int))
    (ann : AnnMap) (day : Int) (slot : String) :
    ((annRun times ticks ann).2).count (day, slot) ≤ 1 := by
  have h := annRun_aux times day slot ticks ann []
  unfold annRun
  simp only [List.count_nil] at h
  by_cases hfin : (lookupSlot ((annRunGo times ann [] ticks).1) day slot).isSome = true
  · rw [hfin] at h
    simp at h
    omega
  · have hfalse : (lookupSlot ((annRunGo times ann [] ticks).1) day slot).isSome = false := by
      rcases hb : (lookupSlot ((annRunGo times ann [] ticks).1) day slot).isSome with _ | _
      · rfl
      · exact absurd hb hfin
    rw [hfalse] at h
    simp only [Bool.false_eq_true, if_false] at h
    omega

/-! ## Claim C10: confirming without an enrollment -/

theorem lookupUser_setUserTrue (uid : UserId) (users : DayConf) :
    lookupUser (setUserTrue uid users) uid = true := by
  induction users with
  | nil => simp [setUserTrue, lookupUser, List.find?_cons]
  | cons q rest ih =>
    by_cases hq : q.1 = uid
    · simp [setUserTrue, hq, lookupUser, List.find?_cons]
    · have hbeq : (q.1 == uid) = false := by simp [hq]
      simp only [setUserTrue, hbeq, Bool.false_eq_true, if_false]
      simpa [lookupUser, List.find?_cons, hbeq] using ih

theorem confGet_setConf_self (conf : ConfMap) (day : Int) (uid : UserId) :
    confGet (setConf conf day uid) day uid = true := by
  induction conf with
  | nil => simp [setConf, confGet, lookupDay, List.find?_cons, lookupUser]
  | cons p rest ih =>
    by_cases hp : p.1 = day
    · simp only [setConf, hp, beq_self_eq_true, if_true]
      simpa [confGet, lookupDay, List.find?_cons, hp] using
        lookupUser_setUserTrue uid p.2
    · have hbeq : (p.1 == day) = false := by simp [hp]
      simp only [setConf, hbeq, Bool.false_eq_true, if_false]
      simpa [confGet, lookupDay, List.find?_cons, hbeq] using ih

/-- Claim C10: `confirmar_rotina` updates the first routine with a matching
id; it records `confirmations[day][user] = true` unconditionally — enrollment
is not a precondition — while the `next_ts` nudge refresh is applied only
when an enrollment entry for the user exists. -/
theorem c10_confirm_without_enrollment (g : Guild) (channelOk : Bool)
    (dayMonth : Int → Int) (today : Int) (pre : List Rotina) (r : Rotina)
    (post : List Rotina) (uid : UserId) (day now : Int)
    (hpre : ∀ r' ∈ pre, r'.id ≠ r.id) :
    confirmar_rotina g channelOk dayMonth today (pre ++ r :: post) r.id uid day now
      = pre ++ confirmRotinaOne g channelOk dayMonth today r uid day now :: post
    ∧ confGet (confirmRotinaOne g channelOk dayMonth today r uid day now).confirmations
        day uid = true
    ∧ (r.enrollments.find? (fun q => q.1 == uid) = none →
        (confirmRotinaOne g channelOk dayMonth today r uid day now).enrollments
          = r.enrollments)
    ∧ (∀ q, r.enrollments.find? (fun q => q.1 == uid) = some q →
        (confirmRotinaOne g channelOk dayMonth today r uid day now).enrollments
          = updatePrefsNextTs r.enrollments uid (now + max 5 q.2.interval_min * 60)) := by
  refine ⟨?_, ?_, ?_, ?_⟩
  · induction pre with
    | nil => simp [confirmar_rotina]
    | cons p rest ih =>
      have hne : (p.id == r.id) = false := by
        simpa using hpre p (List.mem_cons_self p rest)
      simp only [List.cons_append, confirmar_rotina, hne, Bool.false_eq_true, if_false]
      show p :: confirmar_rotina g channelOk dayMonth today (rest ++ r :: post) r.id uid day now
        = p :: (rest ++ confirmRotinaOne g channelOk dayMonth today r uid day now :: post)
      rw [ih (fun r' hr' => hpre r' (List.mem_cons_of_mem p hr'))]
  · show confGet (setConf r.confirmations day uid) day uid = true
    exact confGet_setConf_self r.confirmations day uid
  · intro hnone
    show (match r.enrollments.find? (fun q => q.1 == uid) with
      | some q => updatePrefsNextTs r.enrollments uid (now + max 5 q.2.interval_min * 60)
      | none => r.enrollments) = r.enrollments
    rw [hnone]
  · intro q hq
    show (match r.enrollments.find? (fun q => q.1 == uid) with
      | some q => updatePrefsNextTs r.enrollments uid (now + max 5 q.2.interval_min * 60)
      | none => r.enrollments)
        = updatePrefsNextTs r.enrollments uid (now + max 5 q.2.interval_min * 60)
    rw [hq]

theorem c10_confirm_without_enrollment_witness :
    confGet (confirmRotinaOne ⟨fun _ => false, fun _ => false, fun _ _ => false⟩ false
        (fun _ => 0) 20 ⟨1, [], [], ⟨[], ⟨none, none, none⟩⟩⟩ 7 20 100).confirmations
        20 7 = true
    ∧ (confirmRotinaOne ⟨fun _ => false, fun _ => false, fun _ _ => false⟩ false
        (fun _ => 0) 20 ⟨1, [], [], ⟨[], ⟨none, none, none⟩⟩⟩ 7 20 100).enrollments = [] := by
  have h := c10_confirm_without_enrollment
    ⟨fun _ => false, fun _ => false, fun _ _ => false⟩ false (fun _ => 0) 20 []
    ⟨1, [], [], ⟨[], ⟨none, none, none⟩⟩⟩ [] 7 20 100 (fun r' hr' => by cases hr')
  exact ⟨h.2.1, h.2.2.1 rfl⟩

/-! ## Claim C1: monthly-top ranking order -/

theorem rankGe_iff_asc (conf : ConfMap) (today : Int) (a b : UserId × Nat) :
    rankGe conf today a b ↔ rankGeAsc conf today a b := by
  simp only [rankGe, keyLe, rankKey, rankGeAsc]
  constructor
  · rintro (h | ⟨h1, h2 | ⟨h3, h4⟩⟩)
    · exact Or.inl h
    · exact Or.inr ⟨h1.symm, Or.inl h2⟩
    · have hx0 : ((a.1 : Nat) : Int) ≤ ((b.1 : Nat) : Int) := by omega
      have hx : a.1 ≤ b.1 := by exact_mod_cast hx0
      exact Or.inr ⟨h1.symm, Or.inr ⟨h3.symm, hx⟩⟩
  · rintro (h | ⟨h1, h2 | ⟨h3, h4⟩⟩)
    · exact Or.inl h
    · exact Or.inr ⟨h1.symm, Or.inl h2⟩
    · have hx0 : ((a.1 : Nat) : Int) ≤ ((b.1 : Nat) : Int) := by exact_mod_cast h4
      have hx : -((b.1 : Int)) ≤ -((a.1 : Int)) := by omega
      exact Or.inr ⟨h1.symm, Or.inr ⟨h3.symm, hx⟩⟩

/-- Claim C1 counterexample: with two users tied on count and streak, the
ranking of `_rotina_monthly_counts` puts the SMALLER user id first —
`sorted(..., reverse=True)` on the key `(count, streak, -uid)` tie-breaks by
user id ascending — so the claimed (count desc, streak desc, id desc) order
does not describe the output. -/
theorem c1_counterexample :
    ¬ List.Pairwise (rankGeDesc [(15, [(1, true), (2, true)])] 20)
        (rotina_monthly_counts (fun _ => 0) [(15, [(1, true), (2, true)])] 20 0) := by
  decide

/-- Claim C1 (amended): for every routine history and month key, the
monthly-top ranking orders users by confirmation count descending, then
current streak descending, then user id ascending; that relation is total
over any two entries, so the output is deterministically totally ordered. -/
theorem c1_monthly_top_order (dayMonth : Int → Int) (conf : ConfMap) (today mk : Int) :
    List.Pairwise (rankGeAsc conf today) (rotina_monthly_counts dayMonth conf today mk)
    ∧ ∀ a b : UserId × Nat, rankGeAsc conf today a b ∨ rankGeAsc conf today b a := by
  constructor
  · have hs := List.sorted_insertionSort (rankGe conf today)
      (monthlyCountsTable dayMonth conf mk)
    exact List.Pairwise.imp (fun hab => (rankGe_iff_asc _ _ _ _).mp hab) hs
  · intro a b
    simp only [rankGeAsc]
    rcases lt_trichotomy a.2 b.2 with h | h | h
    · exact Or.inr (Or.inl h)
    · rcases lt_trichotomy (rotina_user_streak conf a.1 today)
          (rotina_user_streak conf b.1 today) with hs | hs | hs
      · exact Or.inr (Or.inr ⟨h.symm, Or.inl hs⟩)
      · rcases le_total a.1 b.1 with hle | hle
        · exact Or.inl (Or.inr ⟨h, Or.inr ⟨hs, hle⟩⟩)
        · exact Or.inr (Or.inr ⟨h.symm, Or.inr ⟨hs.symm, hle⟩⟩)
      · exact Or.inl (Or.inr ⟨h, Or.inl hs⟩)
    · exact Or.inl (Or.inl h)

/-! ## Claim C4: monthly-top month key refresh -/

theorem monthStamp (X : MonthlyState) (mk : Int) :
    (if X.monthly.month ≠ some mk then
      { X with monthly := { X.monthly with month := some mk }, changed := true }
    else X).monthly.month = some mk := by
  by_cases hm : X.monthly.month ≠ some mk
  · rw [if_pos hm]
  · rw [if_neg hm]
    exact not_not.mp hm

theorem monthStampWinner (X : MonthlyState) (mk : Int) :
    (if X.monthly.month ≠ some mk then
      { X with monthly := { X.monthly with month := some mk }, changed := true }
    else X).monthly.winner_id = X.monthly.winner_id := by
  by_cases hm : X.monthly.month ≠ some mk
  · rw [if_pos hm]
  · rw [if_neg hm]

theorem monthStampActions (X : MonthlyState) (mk : Int) :
    (if X.monthly.month ≠ some mk then
      { X with monthly := { X.monthly with month := some mk }, changed := true }
    else X).actions = X.actions := by
  by_cases hm : X.monthly.month ≠ some mk
  · rw [if_pos hm]
  · rw [if_neg hm]

theorem monthlyTopBranch_month (g : Guild) (rid : Nat) (mk : Int) (s1 : MonthlyState)
    (top_user : UserId) :
    (monthlyTopBranch g rid mk s1 top_user).monthly.month = some mk := by
  unfold monthlyTopBranch
  split
  · exact monthStamp _ mk
  · exact monthStamp _ mk

theorem monthlyZeroBranch_month (g : Guild) (rid : Nat) (mk : Int) (s1 : MonthlyState) :
    (monthlyZeroBranch g rid mk s1).monthly.month = some mk := by
  unfold monthlyZeroBranch
  exact monthStamp _ mk

theorem monthlySection_month (g : Guild) (held0 : UserId → Nat → Bool)
    (counts : List (UserId × Nat)) (m0 : MonthlyTop) (mk : Int) (ch0 : Bool)
    (hrole : truthyId m0.role_id = true)
    (hex : g.roleExists (m0.role_id.getD 0) = true) :
    (monthlySection g held0 counts m0 mk ch0).monthly.month = some mk := by
  unfold monthlySection
  rw [if_neg (by simp [hrole]), if_neg (by simp [hex])]
  rcases counts with _ | ⟨⟨top, cnt⟩, rest⟩
  · exact monthlyZeroBranch_month g _ mk _
  · exact monthlyTopBranch_month g _ mk _ top

theorem monthlyZeroBranch_noPrev (g : Guild) (rid : Nat) (mk : Int) (s1 : MonthlyState)
    (hpw : s1.prevWinner = none) :
    (monthlyZeroBranch g rid mk s1).monthly.winner_id = s1.monthly.winner_id
    ∧ (monthlyZeroBranch g rid mk s1).actions = s1.actions := by
  unfold monthlyZeroBranch
  rw [if_neg (show ¬ truthyId s1.prevWinner = true by simp [hpw, truthyId])]
  exact ⟨monthStampWinner s1 mk, monthStampActions s1 mk⟩

theorem monthlyZeroBranch_spec (g : Guild) (held0 : UserId → Nat → Bool)
    (m0 : MonthlyTop) (rid : Nat) (mk : Int) (ch0 : Bool)
    (hw0 : m0.winner_id ≠ some 0) :
    (monthlyZeroBranch g rid mk (monthlyRollover g held0 m0 rid mk ch0)).monthly.winner_id
        = none
    ∧ ∀ pw, m0.winner_id = some pw → g.memberPresent pw = true → held0 pw rid = true →
        RoleAction.remove pw rid
          ∈ (monthlyZeroBranch g rid mk (monthlyRollover g held0 m0 rid mk ch0)).actions := by
  obtain ⟨rzero, w0, mth0⟩ := m0
  by_cases hroll : ((MonthlyTop.mk rzero w0 mth0).month.isSome
      && (MonthlyTop.mk rzero w0 mth0).month != some mk
      && truthyId (MonthlyTop.mk rzero w0 mth0).winner_id) = true
  · have hs1 : monthlyRollover g held0 ⟨rzero, w0, mth0⟩ rid mk ch0 =
        ⟨⟨rzero, none, mth0⟩,
          (removeRoleFromMember g held0 rid (w0.getD 0)).1,
          (removeRoleFromMember g held0 rid (w0.getD 0)).2, true, none⟩ := by
      unfold monthlyRollover
      rw [if_pos hroll]
    rw [hs1]
    have hwt : truthyId w0 = true := by
      simp only [Bool.and_eq_true] at hroll
      exact hroll.2
    constructor
    · exact (monthlyZeroBranch_noPrev g rid mk _ rfl).1
    · intro pw hpw hmem hheld
      have hw : w0 = some pw := by simpa using hpw
      rw [(monthlyZeroBranch_noPrev g rid mk _ rfl).2]
      show RoleAction.remove pw rid ∈ (removeRoleFromMember g held0 rid (w0.getD 0)).2
      rw [hw]
      show RoleAction.remove pw rid ∈ (removeRoleFromMember g held0 rid pw).2
      unfold removeRoleFromMember
      rw [if_pos (by simp [hmem, hheld])]
      simp
  · have hs1 : monthlyRollover g held0 ⟨rzero, w0, mth0⟩ rid mk ch0 =
        ⟨⟨rzero, w0, mth0⟩, held0, [], ch0, w0⟩ := by
      unfold monthlyRollover
      rw [if_neg hroll]
    rw [hs1]
    rcases hwin : w0 with _ | pw
    · subst hwin
      constructor
      · exact (monthlyZeroBranch_noPrev g rid mk _ rfl).1
      · intro pw hpw
        cases hpw
    · subst hwin
      have hpw0 : pw ≠ 0 := by
        intro hz
        exact hw0 (by rw [hz])
      have hwt : truthyId (some pw) = true := by simp [truthyId, hpw0]
      constructor
      · unfold monthlyZeroBranch
        rw [if_pos (show truthyId
            ((⟨⟨rzero, some pw, mth0⟩, held0, [], ch0, some pw⟩ : MonthlyState).prevWinner)
            = true from hwt)]
        rw [if_pos (show (some pw : Option UserId) ≠ none by simp)]
        exact (monthStampWinner _ mk).trans rfl
      · intro pw' hpw' hmem hheld
        have hpp : pw = pw' := Option.some.inj (by simpa using hpw')
        subst hpp
        unfold monthlyZeroBranch
        rw [if_pos (show truthyId
            ((⟨⟨rzero, some pw, mth0⟩, held0, [], ch0, some pw⟩ : MonthlyState).prevWinner)
            = true from hwt)]
        rw [if_pos (show (some pw : Option UserId) ≠ none by simp)]
        show RoleAction.remove pw rid ∈
          (if ((⟨⟨rzero, none, mth0⟩, (removeRoleFromMember g held0 rid pw).1,
              [] ++ (removeRoleFromMember g held0 rid pw).2, true, some pw⟩ :
                MonthlyState)).monthly.month ≠ some mk then
            { (⟨⟨rzero, none, mth0⟩, (removeRoleFromMember g held0 rid pw).1,
                [] ++ (removeRoleFromMember g held0 rid pw).2, true, some pw⟩ :
                  MonthlyState) with
              monthly := { (⟨⟨rzero, none, mth0⟩, (removeRoleFromMember g held0 rid pw).1,
                  [] ++ (removeRoleFromMember g held0 rid pw).2, true, some pw⟩ :
                    MonthlyState).monthly with month := some mk },
              changed := true }
          else (⟨⟨rzero, none, mth0⟩, (removeRoleFromMember g held0 rid pw).1,
              [] ++ (removeRoleFromMember g held0 rid pw).2, true, some pw⟩ :
                MonthlyState)).actions
        rw [monthStampActions
          (⟨⟨rzero, none, mth0⟩, (removeRoleFromMember g held0 rid pw).1,
            [] ++ (removeRoleFromMember g held0 rid pw).2, true, some pw⟩ : MonthlyState) mk]
        show RoleAction.remove pw rid ∈ [] ++ (removeRoleFromMember g held0 rid pw).2
        unfold removeRoleFromMember
        rw [if_pos (by simp [hmem, hheld])]
        simp

theorem monthlySection_zero_eq (g : Guild) (held0 : UserId → Nat → Bool)
    (m0 : MonthlyTop) (mk : Int) (ch0 : Bool)
    (hrole : truthyId m0.role_id = true)
    (hex : g.roleExists (m0.role_id.getD 0) = true) :
    monthlySection g held0 [] m0 mk ch0
      = monthlyZeroBranch g (m0.role_id.getD 0) mk
          (monthlyRollover g held0 m0 (m0.role_id.getD 0) mk ch0) := by
  unfold monthlySection
  rw [if_neg (by simp [hrole]), if_neg (by simp [hex])]

/-- Claim C4: whenever the monthly-top evaluation actually runs (the channel
resolves, the triggering member is present, and a monthly role is configured
and resolvable), the stored month key afterwards equals the current month key
of the routine's resolved timezone — even when the current month has zero
confirmations, in which case the stored winner is cleared and a revoke of the
role from the previous winner is requested (when that member is still present
and holds the role). -/
theorem c4_month_key_updated (g : Guild) (channelOk : Bool) (dayMonth : Int → Int)
    (conf : ConfMap) (today : Int) (ach : Achievements) (trigger : UserId)
    (hch : channelOk = true) (hmem : g.memberPresent trigger = true)
    (hrole : truthyId ach.monthly_top.role_id = true)
    (hex : g.roleExists (ach.monthly_top.role_id.getD 0) = true)
    (hw0 : ach.monthly_top.winner_id ≠ some 0) :
    (processRotinaAchievements g channelOk dayMonth conf today ach trigger).monthly.month
      = some (dayMonth today)
    ∧ (rotina_monthly_counts dayMonth conf today (dayMonth today) = [] →
        (processRotinaAchievements g channelOk dayMonth conf today ach
            trigger).monthly.winner_id = none
        ∧ ∀ pw, ach.monthly_top.winner_id = some pw → ach.streak_roles = [] →
            g.memberPresent pw = true →
            g.hasRole pw (ach.monthly_top.role_id.getD 0) = true →
            RoleAction.remove pw (ach.monthly_top.role_id.getD 0)
              ∈ (processRotinaAchievements g channelOk dayMonth conf today ach
                  trigger).actions) := by
  subst hch
  have hred : processRotinaAchievements g true dayMonth conf today ach trigger =
      ⟨(monthlySection g
          (streakSection g g.hasRole ach.streak_roles
            (rotina_user_streak conf trigger today) trigger).1
          (rotina_monthly_counts dayMonth conf today (dayMonth today))
          ach.monthly_top (dayMonth today) false).monthly,
        (monthlySection g
          (streakSection g g.hasRole ach.streak_roles
            (rotina_user_streak conf trigger today) trigger).1
          (rotina_monthly_counts dayMonth conf today (dayMonth today))
          ach.monthly_top (dayMonth today) false).held,
        (streakSection g g.hasRole ach.streak_roles
          (rotina_user_streak conf trigger today) trigger).2 ++
          (monthlySection g
            (streakSection g g.hasRole ach.streak_roles
              (rotina_user_streak conf trigger today) trigger).1
            (rotina_monthly_counts dayMonth conf today (dayMonth today))
            ach.monthly_top (dayMonth today) false).actions,
        (monthlySection g
          (streakSection g g.hasRole ach.streak_roles
            (rotina_user_streak conf trigger today) trigger).1
          (rotina_monthly_counts dayMonth conf today (dayMonth today))
          ach.monthly_top (dayMonth today) false).changed⟩ := by
    unfold processRotinaAchievements
    rw [if_neg (show ¬ (!true) = true by simp)]
    rw [if_neg (show ¬ (!g.memberPresent trigger) = true by simp [hmem])]
  rw [hred]
  constructor
  · exact monthlySection_month g _ _ ach.monthly_top (dayMonth today) false hrole hex
  · intro hcnt
    rw [hcnt]
    constructor
    · rw [monthlySection_zero_eq g _ ach.monthly_top (dayMonth today) false hrole hex]
      exact (monthlyZeroBranch_spec g _ ach.monthly_top (ach.monthly_top.role_id.getD 0)
        (dayMonth today) false hw0).1
    · intro pw hpw hsr hm hh
      rw [monthlySection_zero_eq g _ ach.monthly_top (dayMonth today) false hrole hex]
      refine List.mem_append.mpr (Or.inr ?_)
      refine (monthlyZeroBranch_spec g _ ach.monthly_top (ach.monthly_top.role_id.getD 0)
        (dayMonth today) false hw0).2 pw hpw hm ?_
      rw [hsr]
      exact hh

theorem c4_month_key_updated_witness :
    (processRotinaAchievements ⟨fun _ => true, fun _ => true, fun _ _ => true⟩ true
        (fun _ => 7) [] 0 ⟨[], ⟨some 5, some 9, some 3⟩⟩ 2).monthly.month = some 7
    ∧ (processRotinaAchievements ⟨fun _ => true, fun _ => true, fun _ _ => true⟩ true
        (fun _ => 7) [] 0 ⟨[], ⟨some 5, some 9, some 3⟩⟩ 2).monthly.winner_id = none
    ∧ RoleAction.remove 9 5
        ∈ (processRotinaAchievements ⟨fun _ => true, fun _ => true, fun _ _ => true⟩ true
            (fun _ => 7) [] 0 ⟨[], ⟨some 5, some 9, some 3⟩⟩ 2).actions := by
  have h := c4_month_key_updated ⟨fun _ => true, fun _ => true, fun _ _ => true⟩ true
    (fun _ => 7) [] 0 ⟨[], ⟨some 5, some 9, some 3⟩⟩ 2 rfl rfl (by decide) rfl (by decide)
  have hz := h.2 (by decide)
  exact ⟨h.1, hz.1, hz.2 9 rfl rfl rfl rfl⟩

/-! ## Claims C2 and C7: the `_rotina_stats` streak -/

theorem getInfo_setInfo_self (st : Stats) (u : UserId) (i : UserInfo) :
    getInfo (setInfo st u i) u = i := by
  induction st with
  | nil => simp [setInfo, getInfo, List.find?_cons]
  | cons p rest ih =>
    by_cases hp : p.1 = u
    · simp [setInfo, hp, getInfo, List.find?_cons]
    · have hbeq : (p.1 == u) = false := by simp [hp]
      simp only [setInfo, hbeq, Bool.false_eq_true, if_false]
      simpa [getInfo, List.find?_cons, hbeq] using ih

theorem getInfo_setInfo_ne (st : Stats) (u v : UserId) (i : UserInfo) (hne : v ≠ u) :
    getInfo (setInfo st u i) v = getInfo st v := by
  have huv : (u == v) = false := beq_eq_false_iff_ne.mpr (Ne.symm hne)
  induction st with
  | nil => simp [setInfo, getInfo, List.find?_cons, huv]
  | cons p rest ih =>
    by_cases hp : p.1 = u
    · have hpv : (p.1 == v) = false := by rw [hp]; exact huv
      simp [setInfo, hp, getInfo, List.find?_cons, huv, hpv]
    · have hbeq : (p.1 == u) = false := by simp [hp]
      by_cases hpv : p.1 = v
      · simp [setInfo, hbeq, getInfo, List.find?_cons, hpv, hne]
      · have hpv' : (p.1 == v) = false := by simp [hpv]
        simp only [setInfo, hbeq, Bool.false_eq_true, if_false]
        simpa [getInfo, List.find?_cons, hpv'] using ih

theorem statsProcessUsers_not_mem (day : Int) (uid : UserId) :
    ∀ (users : DayConf) (st : Stats), uid ∉ users.map Prod.fst →
      getInfo (statsProcessUsers day st users) uid = getInfo st uid := by
  intro users
  induction users with
  | nil => intro st _; rfl
  | cons q rest ih =>
    intro st hu
    have hq : q.1 ≠ uid := by
      intro h
      exact hu (by simp [h])
    have hrest : uid ∉ rest.map Prod.fst := by
      intro h
      exact hu (by simp [h])
    show getInfo (statsProcessUsers day
      (if q.2 then setInfo st q.1 (statsUpdate (getInfo st q.1) day) else st) rest) uid
      = getInfo st uid
    rw [ih _ hrest]
    by_cases h2 : q.2 = true
    · rw [if_pos h2]
      exact getInfo_setInfo_ne st q.1 uid _ (Ne.symm hq)
    · rw [if_neg h2]

theorem getInfo_statsProcessUsers (day : Int) (uid : UserId) :
    ∀ (users : DayConf) (st : Stats), (users.map Prod.fst).Nodup →
      getInfo (statsProcessUsers day st users) uid
        = if lookupUser users uid then statsUpdate (getInfo st uid) day
          else getInfo st uid := by
  intro users
  induction users with
  | nil => intro st _; simp [statsProcessUsers, lookupUser]
  | cons q rest ih =>
    intro st hnd
    simp only [List.map_cons, List.nodup_cons] at hnd
    show getInfo (statsProcessUsers day
      (if q.2 then setInfo st q.1 (statsUpdate (getInfo st q.1) day) else st) rest) uid = _
    by_cases hq : q.1 = uid
    · have hlu : lookupUser (q :: rest) uid = q.2 := by
        simp [lookupUser, List.find?_cons, hq]
      rw [hlu]
      have hrest : uid ∉ rest.map Prod.fst := by
        rw [← hq]
        exact hnd.1
      rw [statsProcessUsers_not_mem day uid rest _ hrest]
      by_cases h2 : q.2 = true
      · rw [if_pos h2, if_pos h2, hq]
        exact getInfo_setInfo_self st uid _
      · rw [if_neg h2, if_neg (by simpa using h2)]
    · have hq' : (q.1 == uid) = false := by simp [hq]
      have hlu : lookupUser (q :: rest) uid = lookupUser rest uid := by
        simp [lookupUser, List.find?_cons, hq']
      rw [hlu, ih _ hnd.2]
      by_cases h2 : q.2 = true
      · rw [if_pos h2, getInfo_setInfo_ne st q.1 uid _ (Ne.symm hq)]
      · rw [if_neg h2]

theorem lookupDay_nodup (conf : ConfMap) (d : Int)
    (hWF : ∀ p ∈ conf, (p.2.map Prod.fst).Nodup) :
    ((lookupDay conf d).map Prod.fst).Nodup := by
  unfold lookupDay
  split
  · next p hf => exact hWF p (List.mem_of_find?_eq_some hf)
  · simp

theorem getInfo_statsFold (conf : ConfMap) (cutoff : Int) (uid : UserId)
    (hWF : ∀ p ∈ conf, (p.2.map Prod.fst).Nodup) :
    ∀ (ds : List Int) (st : Stats),
      getInfo (ds.foldl (statsProcessDay conf cutoff) st) uid
        = (ds.filter (fun d => decide (cutoff ≤ d) && confGet conf d uid)).foldl
            statsUpdate (getInfo st uid) := by
  intro ds
  induction ds with
  | nil => intro st; rfl
  | cons d rest ih =>
    intro st
    simp only [List.foldl_cons, List.filter_cons]
    have hday : getInfo (statsProcessDay conf cutoff st d) uid
        = if (decide (cutoff ≤ d) && confGet conf d uid) = true
          then statsUpdate (getInfo st uid) d else getInfo st uid := by
      unfold statsProcessDay
      by_cases hlt : d < cutoff
      · rw [if_pos hlt, if_neg (by simp; omega)]
      · rw [if_neg hlt]
        rw [getInfo_statsProcessUsers d uid (lookupDay conf d) st (lookupDay_nodup conf d hWF)]
        have hc : (decide (cutoff ≤ d) && confGet conf d uid) = confGet conf d uid := by
          have : decide (cutoff ≤ d) = true := by simp; omega
          rw [this, Bool.true_and]
        rw [hc]
        rfl
    by_cases hpred : (decide (cutoff ≤ d) && confGet conf d uid) = true
    · rw [if_pos hpred] at hday
      rw [if_pos hpred]
      rw [ih (statsProcessDay conf cutoff st d), hday]
      simp only [List.foldl_cons]
    · rw [if_neg hpred] at hday
      rw [if_neg hpred]
      rw [ih (statsProcessDay conf cutoff st d), hday]

/-- The streak `_rotina_stats` reports for a user is the fold of the
accumulator update over that user's confirmed days inside the window, in
ascending day order. -/
theorem rotina_stats_streak_eq (conf : ConfMap) (today : Int) (uid : UserId)
    (hWF : ∀ p ∈ conf, (p.2.map Prod.fst).Nodup) :
    rotina_stats_streak conf today uid
      = (userFoldInfo (userDayList conf (today - 29) uid)).streak := by
  unfold rotina_stats_streak rotina_stats_table userDayList userFoldInfo
  rw [getInfo_statsFold conf (today - 29) uid hWF (statsDays conf) []]
  rfl

theorem statsUpdate_last_day (i : UserInfo) (d : Int) :
    (statsUpdate i d).last_day = some d := by
  rcases hl : i.last_day with _ | last
  · simp [statsUpdate, hl]
  · simp only [statsUpdate, hl]
    by_cases h1 : 1 < d - last
    · rw [if_pos h1]
    · rw [if_neg h1]
      by_cases h2 : (d - last == 1) = true
      · rw [if_pos h2]
      · rw [if_neg h2]

theorem statsUpdate_none (i : UserInfo) (d : Int) (hl : i.last_day = none) :
    (statsUpdate i d).streak = 1 := by
  simp [statsUpdate, hl]

theorem statsUpdate_gap (i : UserInfo) (d last : Int) (hl : i.last_day = some last)
    (hgap : 1 < d - last) : (statsUpdate i d).streak = 1 := by
  simp only [statsUpdate, hl]
  rw [if_pos hgap]

theorem statsUpdate_step (i : UserInfo) (d last : Int) (hl : i.last_day = some last)
    (hstep : d - last = 1) : (statsUpdate i d).streak = i.streak + 1 := by
  simp only [statsUpdate, hl]
  rw [if_neg (show ¬1 < d - last by omega), if_pos (show (d - last == 1) = true by simp [hstep])]

theorem userFoldInfo_concat (l : List Int) (d : Int) :
    userFoldInfo (l ++ [d]) = statsUpdate (userFoldInfo l) d := by
  unfold userFoldInfo
  rw [List.foldl_concat]

theorem mem_statsDays {conf : ConfMap} {d : Int} :
    d ∈ statsDays conf ↔ d ∈ conf.map Prod.fst := by
  unfold statsDays
  rw [(List.perm_insertionSort _ _).mem_iff, List.mem_dedup]

theorem statsDays_sorted_lt (conf : ConfMap) :
    List.Pairwise (· < ·) (statsDays conf) := by
  have hs : List.Pairwise (· ≤ ·) (statsDays conf) :=
    List.sorted_insertionSort (· ≤ ·) (conf.map Prod.fst).dedup
  have hn : List.Pairwise (· ≠ ·) (statsDays conf) :=
    (List.perm_insertionSort (· ≤ ·) (conf.map Prod.fst).dedup).nodup_iff.mpr
      (List.nodup_dedup _)
  exact (hs.and hn).imp (fun hab => lt_of_le_of_ne hab.1 hab.2)

theorem userDayList_sorted (conf : ConfMap) (cutoff : Int) (uid : UserId) :
    List.Pairwise (· < ·) (userDayList conf cutoff uid) :=
  List.Pairwise.filter _ (statsDays_sorted_lt conf)

theorem mem_userDayList {conf : ConfMap} {cutoff : Int} {uid : UserId} {d : Int} :
    d ∈ userDayList conf cutoff uid ↔ (cutoff ≤ d ∧ confGet conf d uid = true) := by
  unfold userDayList
  rw [List.mem_filter]
  constructor
  · rintro ⟨_, hpred⟩
    simp only [Bool.and_eq_true, decide_eq_true_eq] at hpred
    exact hpred
  · rintro ⟨hc, hg⟩
    refine ⟨?_, by simp [hc, hg]⟩
    rw [mem_statsDays]
    obtain ⟨p, hp, hpd⟩ := confGet_exists_entry hg
    exact List.mem_map.mpr ⟨p, hp, hpd⟩

/-- A sorted day list that contains exactly the user's confirmed days up to `t`
(with `t` itself confirmed) folds to the same streak the backward walk of
`_rotina_user_streak` computes at `t`. -/
theorem streak_fold_eq (conf : ConfMap) (uid : UserId) :
    ∀ ds : List Int, List.Pairwise (· < ·) ds →
      ∀ t : Int, (∀ d : Int, d ∈ ds ↔ (confGet conf d uid = true ∧ d ≤ t)) →
        t ∈ ds → (userFoldInfo ds).streak = rotina_user_streak conf uid t := by
  intro ds
  induction ds using List.reverseRecOn with
  | nil =>
    intro _ t _ ht
    cases ht
  | append_singleton l d ih =>
    intro hsorted t hmem ht
    have hpw := List.pairwise_append.mp hsorted
    have hld : ∀ x ∈ l, x < d := fun x hx => hpw.2.2 x hx d (List.mem_singleton_self d)
    have htd : t = d := by
      rcases List.mem_append.mp ht with hl | hd
      · exfalso
        have h1 : t < d := hld t hl
        have h2 : d ≤ t :=
          ((hmem d).mp (List.mem_append.mpr (Or.inr (List.mem_singleton_self d)))).2
        omega
      · exact List.mem_singleton.mp hd
    subst htd
    have hconf : confGet conf t uid = true :=
      ((hmem t).mp (List.mem_append.mpr (Or.inr (List.mem_singleton_self t)))).1
    rw [userFoldInfo_concat]
    rcases List.eq_nil_or_concat l with hnil | ⟨l', d', hcat⟩
    · subst hnil
      rw [statsUpdate_none (userFoldInfo []) t rfl, rotina_user_streak_of_confirmed hconf]
      have hnotc : confGet conf (t - 1) uid = false := by
        cases hcg : confGet conf (t - 1) uid
        · rfl
        · exfalso
          have hmem' : t - 1 ∈ ([] : List Int) ++ [t] := (hmem (t - 1)).mpr ⟨hcg, by omega⟩
          rw [List.nil_append, List.mem_singleton] at hmem'
          omega
      rw [rotina_user_streak_of_not_confirmed hnotc]
    · have hl : l = l' ++ [d'] := by rw [hcat, List.concat_eq_append]
      have hlast : (userFoldInfo l).last_day = some d' := by
        rw [hl, userFoldInfo_concat]
        exact statsUpdate_last_day (userFoldInfo l') d'
      have hd'l : d' ∈ l := by
        rw [hl]
        exact List.mem_append.mpr (Or.inr (List.mem_singleton_self d'))
      have hd'd : d' < t := hld d' hd'l
      by_cases hstep : d' = t - 1
      · rw [statsUpdate_step (userFoldInfo l) t d' hlast (by omega),
          rotina_user_streak_of_confirmed hconf]
        have hIH : (userFoldInfo l).streak = rotina_user_streak conf uid (t - 1) := by
          apply ih hpw.1 (t - 1)
          · intro x
            constructor
            · intro hx
              have hx' := (hmem x).mp (List.mem_append.mpr (Or.inl hx))
              have hxd : x < t := hld x hx
              exact ⟨hx'.1, by omega⟩
            · rintro ⟨hcx, hxle⟩
              have hx' : x ∈ l ++ [t] := (hmem x).mpr ⟨hcx, by omega⟩
              rcases List.mem_append.mp hx' with h | h
              · exact h
              · rw [List.mem_singleton] at h
                omega
          · rw [← hstep]
            exact hd'l
        rw [hIH]
      · have hgap : 1 < t - d' := by omega
        rw [statsUpdate_gap (userFoldInfo l) t d' hlast hgap,
          rotina_user_streak_of_confirmed hconf]
        have hle' : ∀ x ∈ l, x ≤ d' := by
          intro x hx
          rw [hl] at hx
          rcases List.mem_append.mp hx with h | h
          · have hl'pw := List.pairwise_append.mp (hl ▸ hpw.1)
            exact le_of_lt (hl'pw.2.2 x h d' (List.mem_singleton_self d'))
          · rw [List.mem_singleton] at h
            omega
        have hnotc : confGet conf (t - 1) uid = false := by
          cases hcg : confGet conf (t - 1) uid
          · rfl
          · exfalso
            have hmem' : t - 1 ∈ l ++ [t] := (hmem (t - 1)).mpr ⟨hcg, by omega⟩
            rcases List.mem_append.mp hmem' with h | h
            · have := hle' _ h
              omega
            · rw [List.mem_singleton] at h
              omega
        rw [rotina_user_streak_of_not_confirmed hnotc]

/-- C2 (counterexample): the streak used by the achievement engine
(`_rotina_user_streak`) and the streak computed by `_rotina_stats` are NOT
extensionally equal. With a single confirmation on day 10 and today = 11, the
backward walk returns 0 (today is unconfirmed), while the 30-day statistics
table reports a streak of 1 for the run ending at the last confirmed day. -/
theorem c2_counterexample :
    rotina_user_streak [((10 : Int), [((1 : UserId), true)])] 1 11
      ≠ rotina_stats_streak [((10 : Int), [((1 : UserId), true)])] 11 1 := by
  decide

/-- C2 (amended): `_rotina_user_streak` counts consecutive confirmed days
ending at today (0 when today is unconfirmed, no window), while `_rotina_stats`
reports the run ending at the user's last confirmed day inside the trailing
30-day window. The two agree whenever the user has a truthy confirmation for
today and every confirmed day lies inside the window; both embeddings are pure
functions of the confirmation map, hence deterministic and free of side
effects on the store. -/
theorem c2_streaks_agree (conf : ConfMap) (uid : UserId) (today : Int)
    (hWF : ∀ p ∈ conf, (p.2.map Prod.fst).Nodup)
    (htoday : confGet conf today uid = true)
    (hbound : ∀ d : Int, confGet conf d uid = true → today - 29 ≤ d ∧ d ≤ today) :
    rotina_stats_streak conf today uid = rotina_user_streak conf uid today := by
  rw [rotina_stats_streak_eq conf today uid hWF]
  apply streak_fold_eq conf uid (userDayList conf (today - 29) uid)
    (userDayList_sorted conf (today - 29) uid) today
  · intro d
    rw [mem_userDayList]
    constructor
    · rintro ⟨_, hg⟩
      exact ⟨hg, (hbound d hg).2⟩
    · rintro ⟨hg, _⟩
      exact ⟨(hbound d hg).1, hg⟩
  · exact mem_userDayList.mpr ⟨(hbound today htoday).1, htoday⟩

theorem c2_streaks_agree_witness :
    rotina_stats_streak [((5 : Int), [((1 : UserId), true)])] 5 1
      = rotina_user_streak [((5 : Int), [((1 : UserId), true)])] 1 5 := by
  apply c2_streaks_agree
  · decide
  · decide
  · intro d hd
    by_cases h5 : d = 5
    · omega
    · exfalso
      have hb5 : ((5 : Int) == d) = false := by
        simp only [beq_eq_false_iff_ne]
        omega
      have hfalse : confGet [((5 : Int), [((1 : UserId), true)])] d 1 = false := by
        simp [confGet, lookupDay, lookupUser, List.find?, hb5]
      rw [hd] at hfalse
      cases hfalse

/-- C7: when the user's confirmed-day list inside the trailing 30-day window
ends with two days separated by a gap of more than one day, the streak
`_rotina_stats` reports for that user is exactly 1 — the accumulator is reset
to 1 at the first confirmed day after the gap, not to 0 and not merely
decremented. -/
theorem c7_streak_reset_to_one (conf : ConfMap) (uid : UserId) (today : Int)
    (l : List Int) (d1 d2 : Int)
    (hWF : ∀ p ∈ conf, (p.2.map Prod.fst).Nodup)
    (hds : userDayList conf (today - 29) uid = l ++ [d1, d2])
    (hgap : 1 < d2 - d1) :
    rotina_stats_streak conf today uid = 1 := by
  rw [rotina_stats_streak_eq conf today uid hWF, hds,
    show l ++ [d1, d2] = (l ++ [d1]) ++ [d2] by simp,
    userFoldInfo_concat, userFoldInfo_concat]
  exact statsUpdate_gap _ d2 d1 (statsUpdate_last_day _ d1) hgap

theorem c7_streak_reset_to_one_witness :
    rotina_stats_streak
      [((1 : Int), [((1 : UserId), true)]), ((5 : Int), [((1 : UserId), true)])] 5 1 = 1 := by
  apply c7_streak_reset_to_one _ _ _ [] 1 5
  · decide
  · decide
  · decide

end Cerebroso
